import Mathlib

/-!
Verification of the procedural-generation and animation-scheduling core of the
`gridways` sketch (`src/gridways/sketch.ts`).

Shallow embedding conventions:
* JavaScript numbers are modelled as rationals (`ℚ`); grid-unit coordinates,
  which the source only ever manipulates as integers, are modelled as `ℤ`.
* The seeded random source (`seedrandom`) is modelled as a stream
  `s : ℕ → ℚ` of unit-interval samples consumed one at a time, in the exact
  call order of the source; an explicit counter is threaded through.
* The recursive partitioner has no termination guarantee for adversarial
  streams, so it is embedded with explicit fuel and returns `Option`.
* JavaScript `%` on nonnegative operands is `jsMod` below.
-/

namespace Gridways

/-- Grid-unit coordinate (`Cord` in the source, used with integer values). -/
abbrev Cord : Type := ℤ × ℤ

/-- A line in grid units: an ordered pair of coordinates. -/
abbrev LineZ : Type := Cord × Cord

/-- Pixel-space coordinate. -/
abbrev QCord : Type := ℚ × ℚ

/-- A line (or rectangle diagonal) in pixel space. -/
abbrev LineQ : Type := QCord × QCord

/-- A pixel-space rectangle, as its top-left/bottom-right corners. -/
abbrev RectQ : Type := QCord × QCord

/-- JavaScript `a % b` for the nonnegative dividends used by the sketch
(`tick % completeTicksDuration` and friends): `a - b * ⌊a / b⌋`. -/
def jsMod (a b : ℚ) : ℚ := a - b * (⌊a / b⌋ : ℤ)

/-- Modelled from the spec: `randomRangeFactory` (`src/utils/random` is not
under `src/`); `random(min, max, 'int')` is the canonical uniform integer draw
`min + ⌊u * (max - min)⌋` from the next unit-interval sample `u`, which for
`min < max` yields integers in `[min, max)` — the spec's "strictly inside the
region ... excluding the two boundary lines". -/
def randomIntDraw (lo hi : ℤ) (u : ℚ) : ℤ := lo + ⌊u * ((hi : ℚ) - (lo : ℚ))⌋

/-- `generateGridPartitioningInGridUnits` from the source, with the shared
seeded random source made explicit as the sample stream `s` plus a counter,
and an explicit fuel for termination (the source recursion has no fuel; `none`
marks fuel exhaustion).  Each call consumes one sample for the
`isVert` coin (`rand() > vertOrHorzRatio`) unless the bound is a dot, and one
more for the cut coordinate in the general case. -/
def generateGridPartitioningInGridUnits (s : ℕ → ℚ) :
    ℕ → Cord → Cord → ℚ → ℕ → Option (List LineZ × ℕ)
  | 0, _, _, _, _ => none
  | fuel + 1, topLeft, bottomRight, vertOrHorzRatio, k =>
    -- if bounds is in effect a dot
    if bottomRight.1 - topLeft.1 = 0 ∧ bottomRight.2 - topLeft.2 = 0 then
      some ([(topLeft, bottomRight)], k)
    else
      let isVert : Bool := decide (s k > vertOrHorzRatio)
      let k1 : ℕ := k + 1
      -- if bound is a 1 by 2 line
      if (bottomRight.1 - topLeft.1 = 1 ∧ bottomRight.2 - topLeft.2 = 0) ∨
          (bottomRight.1 - topLeft.1 = 0 ∧ bottomRight.2 - topLeft.2 = 1) then
        some ([(topLeft, topLeft), (bottomRight, bottomRight)], k1)
      -- if bounds is in effect a 2 by 2 square
      else if bottomRight.1 - topLeft.1 = 1 ∧ bottomRight.2 - topLeft.2 = 1 then
        if isVert then
          some ([(topLeft, (bottomRight.1 - 1, bottomRight.2)),
                 ((topLeft.1 + 1, topLeft.2), bottomRight)], k1)
        else
          some ([(topLeft, (bottomRight.1, bottomRight.2 - 1)),
                 ((topLeft.1, topLeft.2 + 1), bottomRight)], k1)
      else
        let startPt : Cord :=
          if isVert then (randomIntDraw (topLeft.1 + 1) bottomRight.1 (s k1), topLeft.2)
          else (topLeft.1, randomIntDraw (topLeft.2 + 1) bottomRight.2 (s k1))
        let k2 : ℕ := k1 + 1
        let endPt : Cord :=
          if isVert then (startPt.1, bottomRight.2) else (bottomRight.1, startPt.2)
        let line : LineZ := (startPt, endPt)
        let topOrLeftRect : LineZ :=
          (topLeft, (endPt.1 - (if isVert then 1 else 0), endPt.2 - (if isVert then 0 else 1)))
        let bottomOrRightRect : LineZ :=
          ((startPt.1 + (if isVert then 1 else 0), startPt.2 + (if isVert then 0 else 1)),
            bottomRight)
        let isTopOrLeftRectValid : Bool :=
          decide (topOrLeftRect.2.1 ≥ topOrLeftRect.1.1 ∧ topOrLeftRect.2.2 ≥ topOrLeftRect.1.2)
        let isBottomOrRightRectValid : Bool :=
          decide (bottomOrRightRect.2.1 ≥ bottomOrRightRect.1.1 ∧
            bottomOrRightRect.2.2 ≥ bottomOrRightRect.1.2)
        let ratio : ℚ :=
          if isVert then vertOrHorzRatio + (1 - vertOrHorzRatio) / 2 else vertOrHorzRatio / 2
        match (if isTopOrLeftRectValid then
                generateGridPartitioningInGridUnits s fuel topOrLeftRect.1 topOrLeftRect.2 ratio k2
              else some ([], k2)) with
        | none => none
        | some (ls1, k3) =>
          match (if isBottomOrRightRectValid then
                  generateGridPartitioningInGridUnits s fuel bottomOrRightRect.1
                    bottomOrRightRect.2 ratio k3
                else some ([], k3)) with
          | none => none
          | some (ls2, k4) => some (ls1 ++ line :: ls2, k4)

/-- The set of grid cells a line stands for: the axis-aligned box with the
line's endpoints as corners (this is exactly the block of cells whose pixel
rectangle `convertGridLinesToRects` produces for that line). -/
def covers (l : LineZ) (c : Cord) : Prop :=
  l.1.1 ≤ c.1 ∧ c.1 ≤ l.2.1 ∧ l.1.2 ≤ c.2 ∧ c.2 ≤ l.2.2

instance (l : LineZ) (c : Cord) : Decidable (covers l c) := by
  unfold covers; infer_instance

/-- The grid metrics and canvas size consumed by `convertGridLinesToRects`
(`gridPartitioning` in the gene plus the sketch context's dimensions). -/
structure GridCfg where
  unitSize : ℚ × ℚ
  gridSizeInUnits : ℤ × ℤ
  gap : ℚ
  width : ℚ
  height : ℚ

/-- `totalGridBounds` from `convertGridLinesToRects`. -/
def totalGridBounds (cfg : GridCfg) : ℚ × ℚ :=
  (cfg.unitSize.1 * (cfg.gridSizeInUnits.1 : ℚ) + cfg.gap * ((cfg.gridSizeInUnits.1 : ℚ) - 1),
   cfg.unitSize.2 * (cfg.gridSizeInUnits.2 : ℚ) + cfg.gap * ((cfg.gridSizeInUnits.2 : ℚ) - 1))

/-- The `topLeft` centering offset from `convertGridLinesToRects`. -/
def gridTopLeft (cfg : GridCfg) : ℚ × ℚ :=
  ((cfg.width - (totalGridBounds cfg).1) / 2, (cfg.height - (totalGridBounds cfg).2) / 2)

/-- `convertGridLinesToRects` from the source: scale each line by
`unitSize + gap` per axis (the far corner also taking the per-line
`gitterRatio` into account and backing off by `gap`), then translate by the
centering offset.  The source maps over `lines` with index `i` and reads
`lineProps[i].gitterRatio`; call sites always pass property lists of the same
length as `lines`. -/
def convertGridLinesToRects (cfg : GridCfg) (lines : List LineQ)
    (lineProps : List (ℚ × ℚ)) : List RectQ :=
  ((List.range lines.length).map (fun i =>
    let l := lines.getD i ((0, 0), (0, 0))
    let gitterRatio := lineProps.getD i (0, 0)
    (((l.1.1 * (cfg.unitSize.1 + cfg.gap), l.1.2 * (cfg.unitSize.2 + cfg.gap)),
      ((l.2.1 + gitterRatio.1) * (cfg.unitSize.1 + cfg.gap) - cfg.gap,
       (l.2.2 + gitterRatio.2) * (cfg.unitSize.2 + cfg.gap) - cfg.gap)) : RectQ))).map
    (fun r =>
      (((gridTopLeft cfg).1 + r.1.1, (gridTopLeft cfg).2 + r.1.2),
       ((gridTopLeft cfg).1 + r.2.1, (gridTopLeft cfg).2 + r.2.2)))

/-- Casts a grid-unit line to pixel-free rational coordinates (the animation
and conversion code treats grid-unit lines as plain numbers). -/
def toQLine (l : LineZ) : LineQ :=
  (((l.1.1 : ℚ), (l.1.2 : ℚ)), ((l.2.1 : ℚ), (l.2.2 : ℚ)))

/-- `animateLine` from the source.  The easing function lives in
`src/utils/easing`, which is outside `src/`, so it is kept abstract as the
parameter `easeOutElastic`. -/
def animateLine (easeOutElastic : ℚ → ℚ) (l : LineQ) (ty : String)
    (proportion : ℚ) : LineQ :=
  let startRatio : ℚ :=
    if ty = "start-suck" then 1 - easeOutElastic proportion
    else if ty = "start-expand" then easeOutElastic proportion
    else 0
  let endRatio : ℚ :=
    if ty = "static" then proportion
    else if ty = "start-suck" then 1
    else if ty = "start-expand" then 1
    else if ty = "end-suck" then 1 - easeOutElastic proportion
    else if ty = "end-expand" then easeOutElastic proportion
    else 0
  -- if vert, scale the y value
  if l.2.1 - l.1.1 = 0 then
    ((l.1.1, l.1.2 + (l.2.2 - l.1.2) * startRatio),
     (l.2.1, l.1.2 + (l.2.2 - l.1.2) * endRatio))
  -- if horz, scale the x value
  else if l.2.2 - l.1.2 = 0 then
    ((l.1.1 + (l.2.1 - l.1.1) * startRatio, l.1.2),
     (l.1.1 + (l.2.1 - l.1.1) * endRatio, l.2.2))
  else l

/-- The `animationSequence` of the `'breath'` branch. -/
def animationSequence : List String :=
  ["start-expand", "start-suck", "end-suck", "end-expand"]

/-- The recursive `Animation` record of `types.d.ts`; `props.lineIndex` is the
only `props` field the animation code reads. -/
inductive Animation : Type where
  | node (startDelayInTicks durationInTicks endDelayInTicks : ℚ)
      (ty : String) (lineIndex : ℕ) (subAnimations : List Animation)

def Animation.startDelayInTicks : Animation → ℚ
  | .node sd _ _ _ _ _ => sd

def Animation.durationInTicks : Animation → ℚ
  | .node _ du _ _ _ _ => du

def Animation.endDelayInTicks : Animation → ℚ
  | .node _ _ ed _ _ _ => ed

def Animation.ty : Animation → String
  | .node _ _ _ t _ _ => t

def Animation.lineIndex : Animation → ℕ
  | .node _ _ _ _ li _ => li

def Animation.subAnimations : Animation → List Animation
  | .node _ _ _ _ _ subs => subs

/-- `getAnimatedLinesWithAnimations` from the source.  `tick % duration` is
`jsMod` (the sketch only ever evaluates at nonnegative ticks); JavaScript's
`lines[...]`/`animationSequence[...]` indexing is `getD` (call sites stay in
range). -/
def getAnimatedLinesWithAnimations (easeOutElastic : ℚ → ℚ) (lines : List LineQ)
    (tick : ℚ) : Animation → List LineQ
  | .node sd du ed ty _li subs =>
    let completeTicksDuration := sd + du + ed
    let relativeTick := jsMod tick completeTicksDuration
    if relativeTick < sd then
      lines.map (fun l => animateLine easeOutElastic l "static" 1)
    else if relativeTick ≥ sd ∧ relativeTick < completeTicksDuration - ed then
      if ty = "timeline" then
        (subs.attach.map (fun a =>
          getAnimatedLinesWithAnimations easeOutElastic
            [lines.getD a.1.lineIndex ((0, 0), (0, 0))] (relativeTick - sd) a.1)).flatten
      else if ty = "breath" then
        let relativeTickToDuration := relativeTick - sd
        let sequenceDurationInTicks := du / 4
        let proportion :=
          jsMod relativeTickToDuration sequenceDurationInTicks / sequenceDurationInTicks
        let animationIndex : ℤ := ⌊relativeTickToDuration / sequenceDurationInTicks⌋
        lines.map (fun l =>
          animateLine easeOutElastic l (animationSequence.getD animationIndex.toNat "")
            proportion)
      else lines.map (fun l => animateLine easeOutElastic l "static" 1)
    else if relativeTick ≥ completeTicksDuration - ed then
      lines.map (fun l => animateLine easeOutElastic l "static" 1)
    else lines
  termination_by a => sizeOf a
  decreasing_by
    simp only [Animation.node.sizeOf_spec]
    have h := List.sizeOf_lt_of_mem a.2
    omega

/-- The palette-ratio walk inside `colorPalleteIndex` (the body of the `for`
loop over `foreground.colorPalletesRatio`, with the running index made
explicit). -/
def colorPalleteIndexGo : List ℚ → ℚ → ℤ → ℤ
  | [], _, _ => -1
  | r :: rest, v, i => if v < r then i else colorPalleteIndexGo rest (v - r) (i + 1)

/-- `colorPalleteIndex` given the normalized noise value
`colorPalleteNormalizedValue` (no sprinkle override). -/
def colorPalleteIndexOf (colorPalletesRatio : List ℚ) (v : ℚ) : ℤ :=
  colorPalleteIndexGo colorPalletesRatio v 0

/-- The normalization applied to the simplex sample before the walk:
`min(|noise| / 0.7, 0.99)`. -/
def colorPalleteNormalizedValue (noise : ℚ) : ℚ :=
  min (|noise| / (7 / 10)) (99 / 100)

/-- The fields of a `ColorPallete` that the palette-selection code reads. -/
structure ColorPallete where
  colors : List String
  tintColors : List String
  type : String

/-- The consuming access `foreground.colorPalletes[colorPalleteIndex].type`
in `rectProps`, modelled with `Option`: `none` is JavaScript's undefined
lookup on an out-of-range (e.g. `-1`) index — the invalid-access condition. -/
def palleteTypeAccess (colorPalletes : List ColorPallete) (i : ℤ) : Option String :=
  if h : 0 ≤ i ∧ i.toNat < colorPalletes.length then
    some (colorPalletes.get ⟨i.toNat, h.2⟩).type
  else none

/-- `Math.max(...list)` over a nonempty list (the sketch only takes maxima of
the nonempty per-line property arrays). -/
def listMax : List ℚ → ℚ
  | [] => 0
  | x :: xs => xs.foldl max x

/-- The `animation` gene fields read by the timeline builder. -/
structure AnimationGene where
  startDelayInTicks : ℚ
  endDelayInTicks : ℚ

/-- The `timelineAnimation` built once per regeneration in `animate()`.
`rectProps` carries, per line, the pair
(`startDelayInTicks`, `breathDurationInTicks`). -/
def timelineAnimation (gene : AnimationGene) (rectProps : List (ℚ × ℚ)) : Animation :=
  let durationInTicks : ℚ :=
    listMax (rectProps.map Prod.fst) + listMax (rectProps.map Prod.snd)
  .node gene.startDelayInTicks durationInTicks gene.endDelayInTicks "timeline" 0
    ((List.range rectProps.length).map (fun i =>
      let r := rectProps.getD i (0, 0)
      .node r.1 r.2 (durationInTicks - r.2 - r.1) "breath" i []))

/-- Shorthand for the per-line bounds invariant: the line is inside the box
`[a,c] × [b,d]` with ordered endpoints. -/
def lineInBox (a b c d : ℤ) (l : LineZ) : Prop :=
  a ≤ l.1.1 ∧ l.1.1 ≤ l.2.1 ∧ l.2.1 ≤ c ∧ b ≤ l.1.2 ∧ l.1.2 ≤ l.2.2 ∧ l.2.2 ≤ d

/-- Membership of a pixel point in a (closed) pixel rectangle. -/
def inRect (r : RectQ) (p : QCord) : Prop :=
  r.1.1 ≤ p.1 ∧ p.1 ≤ r.2.1 ∧ r.1.2 ≤ p.2 ∧ p.2 ≤ r.2.2

/-- The scaled grid bound: the `totalGridBounds`-sized rectangle placed at the
centering offset — the region the partition rectangles are supposed to tile. -/
def scaledGridBound (cfg : GridCfg) : RectQ :=
  (gridTopLeft cfg,
   ((gridTopLeft cfg).1 + (totalGridBounds cfg).1,
    (gridTopLeft cfg).2 + (totalGridBounds cfg).2))

/-- A vertical gap band: the open strip of width `gap` between two
horizontally adjacent grid units (in canvas coordinates). -/
def inGapBandX (cfg : GridCfg) (p : QCord) : Prop :=
  ∃ k : ℤ, 1 ≤ k ∧ k ≤ cfg.gridSizeInUnits.1 - 1 ∧
    (k : ℚ) * (cfg.unitSize.1 + cfg.gap) - cfg.gap < p.1 - (gridTopLeft cfg).1 ∧
    p.1 - (gridTopLeft cfg).1 < (k : ℚ) * (cfg.unitSize.1 + cfg.gap)

/-- A horizontal gap band: the open strip of width `gap` between two
vertically adjacent grid units (in canvas coordinates). -/
def inGapBandY (cfg : GridCfg) (p : QCord) : Prop :=
  ∃ k : ℤ, 1 ≤ k ∧ k ≤ cfg.gridSizeInUnits.2 - 1 ∧
    (k : ℚ) * (cfg.unitSize.2 + cfg.gap) - cfg.gap < p.2 - (gridTopLeft cfg).2 ∧
    p.2 - (gridTopLeft cfg).2 < (k : ℚ) * (cfg.unitSize.2 + cfg.gap)

/-- "The rectangles exactly tile the scaled grid bound": no two of the listed
rectangles share a point, every rectangle lies inside the scaled grid bound,
and every point of the bound not lying in an inter-unit gap band is covered
by some rectangle. -/
def TilesScaledBound (cfg : GridCfg) (rects : List RectQ) : Prop :=
  (∀ i j : ℕ, i < j → j < rects.length → ∀ p : QCord,
      inRect (rects.getD i ((0, 0), (0, 0))) p →
      ¬ inRect (rects.getD j ((0, 0), (0, 0))) p) ∧
  (∀ i : ℕ, i < rects.length → ∀ p : QCord,
      inRect (rects.getD i ((0, 0), (0, 0))) p → inRect (scaledGridBound cfg) p) ∧
  (∀ p : QCord, inRect (scaledGridBound cfg) p →
      ¬ inGapBandX cfg p → ¬ inGapBandY cfg p →
      ∃ i : ℕ, i < rects.length ∧ inRect (rects.getD i ((0, 0), (0, 0))) p)

/-- The Rect Converter exactly as the C8 sentence words it: both grid-unit
endpoints scaled by `(unitSize + gap)` per axis, then the far corner shifted
inward by `(1 - jitterRatio) * (unitSize + gap) - gap`, then the whole grid
translated by the centering offset.  Kept separate from the source-derived
`convertGridLinesToRects` so the two can be compared. -/
def convertGridLinesToRectsSpec (cfg : GridCfg) (lines : List LineQ)
    (lineProps : List (ℚ × ℚ)) : List RectQ :=
  ((List.range lines.length).map (fun i =>
    let l := lines.getD i ((0, 0), (0, 0))
    let gitterRatio := lineProps.getD i (0, 0)
    (((l.1.1 * (cfg.unitSize.1 + cfg.gap), l.1.2 * (cfg.unitSize.2 + cfg.gap)),
      (l.2.1 * (cfg.unitSize.1 + cfg.gap) -
         ((1 - gitterRatio.1) * (cfg.unitSize.1 + cfg.gap) - cfg.gap),
       l.2.2 * (cfg.unitSize.2 + cfg.gap) -
         ((1 - gitterRatio.2) * (cfg.unitSize.2 + cfg.gap) - cfg.gap))) : RectQ))).map
    (fun r =>
      (((gridTopLeft cfg).1 + r.1.1, (gridTopLeft cfg).2 + r.1.2),
       ((gridTopLeft cfg).1 + r.2.1, (gridTopLeft cfg).2 + r.2.2)))

/-- The sample stream exhibiting the C1 counterexample: on the 3×3 grid it
drives a vertical cut at `x = 1`, then inside the left single-column region a
vertical coin flip whose empty-range cut draw receives the sample `0`. -/
def streamCexC1 : ℕ → ℚ :=
  fun n => ([9/10, 1/2, 9/10, 0, 1/10, 1/2, 1/10, 1/2] : List ℚ).getD n (1/2)

/-- Concrete grid configuration for the C1 counterexample: 3×3 grid of 1×1
units with gap 1 on a 5×5 canvas (centering offset zero). -/
def cfgCexC1 : GridCfg :=
  { unitSize := (1, 1), gridSizeInUnits := (3, 3), gap := 1, width := 5, height := 5 }

/-- The line sequence the counterexample stream produces on the 3×3 grid:
the column line `((1,0),(1,2))` is emitted twice (once by the root's vertical
cut and once, spuriously, by the empty-range cut draw that received the
sample 0 inside the left single-column region). -/
def linesCexC1 : List LineZ :=
  [((0, 0), (0, 0)), ((0, 1), (0, 1)), ((0, 2), (0, 2)), ((1, 0), (1, 2)),
   ((1, 0), (1, 2)), ((2, 0), (2, 0)), ((2, 1), (2, 1)), ((2, 2), (2, 2))]

/-! ## Arithmetic helper lemmas -/

theorem jsMod_eq_sub (a b : ℚ) (k : ℤ) (hb : 0 < b) (h1 : (k : ℚ) * b ≤ a)
    (h2 : a < ((k : ℚ) + 1) * b) : jsMod a b = a - (k : ℚ) * b := by
  unfold jsMod
  have hfl : ⌊a / b⌋ = k := by
    rw [Int.floor_eq_iff]
    constructor
    · rw [le_div_iff₀ hb]; exact h1
    · rw [div_lt_iff₀ hb]; linarith
  rw [hfl]
  ring

theorem jsMod_eq_self (a b : ℚ) (h0 : 0 ≤ a) (h : a < b) : jsMod a b = a := by
  have := jsMod_eq_sub a b 0 (lt_of_le_of_lt h0 h) (by simpa using h0) (by simpa using h)
  simpa using this

theorem jsMod_self_eq_zero (b : ℚ) (hb : 0 < b) : jsMod b b = 0 := by
  have := jsMod_eq_sub b b 1 hb (by norm_num) (by push_cast; linarith)
  simpa using this

theorem jsMod_add_cycle (a b : ℚ) (hb : b ≠ 0) : jsMod (a + b) b = jsMod a b := by
  unfold jsMod
  have hdiv : (a + b) / b = a / b + 1 := by field_simp
  rw [hdiv, Int.floor_add_one]
  push_cast
  ring

theorem jsMod_zero_left (b : ℚ) : jsMod 0 b = 0 := by
  unfold jsMod
  simp

/-- The cut drawn by `random(topLeft + 1, bottomRight, 'int')` stays inside
`[topLeft, bottomRight]` whenever the unit sample is in the open interval
`(0, 1)` — including the degenerate calls where the requested range is empty. -/
theorem randomIntDraw_cut_bounds (a b : ℤ) (u : ℚ) (hab : a ≤ b) (h0 : 0 < u)
    (h1 : u < 1) : a ≤ randomIntDraw (a + 1) b u ∧ randomIntDraw (a + 1) b u ≤ b := by
  unfold randomIntDraw
  rcases eq_or_lt_of_le hab with rfl | hlt
  · have harg : u * ((a : ℚ) - ((a + 1 : ℤ) : ℚ)) = -u := by push_cast; ring
    have hfl : ⌊u * ((a : ℚ) - ((a + 1 : ℤ) : ℚ))⌋ = -1 := by
      rw [harg, Int.floor_eq_iff]
      constructor
      · push_cast; linarith
      · push_cast; linarith
    rw [hfl]
    omega
  · have hm : (0 : ℤ) ≤ b - (a + 1) := by omega
    have harg : ((b : ℚ) - ((a + 1 : ℤ) : ℚ)) = ((b - (a + 1) : ℤ) : ℚ) := by push_cast; ring
    rcases eq_or_lt_of_le hm with hz | hpos
    · have : ⌊u * ((b : ℚ) - ((a + 1 : ℤ) : ℚ))⌋ = 0 := by
        rw [harg, ← hz]
        simp
      rw [this]
      omega
    · have hlow : 0 ≤ ⌊u * ((b : ℚ) - ((a + 1 : ℤ) : ℚ))⌋ := by
        apply Int.floor_nonneg.mpr
        apply mul_nonneg (le_of_lt h0)
        rw [harg]
        exact_mod_cast hm
      have hup : ⌊u * ((b : ℚ) - ((a + 1 : ℤ) : ℚ))⌋ < b - (a + 1) := by
        apply Int.floor_lt.mpr
        rw [harg]
        have hc : (0 : ℚ) < ((b - (a + 1) : ℤ) : ℚ) := by exact_mod_cast hpos
        calc u * ((b - (a + 1) : ℤ) : ℚ) < 1 * ((b - (a + 1) : ℤ) : ℚ) := by
              exact mul_lt_mul_of_pos_right h1 hc
          _ = ((b - (a + 1) : ℤ) : ℚ) := one_mul _
      omega

/-! ## `animateLine` helper lemmas -/

/-- The fully-open states: `static` with proportion 1 reproduces an
axis-aligned line. -/
theorem animateLine_static_one (easeOutElastic : ℚ → ℚ) (l : LineQ)
    (hax : l.2.1 - l.1.1 = 0 ∨ l.2.2 - l.1.2 = 0) :
    animateLine easeOutElastic l "static" 1 = l := by
  rcases hax with h | h
  · simp [animateLine, h]
  · by_cases hv : l.2.1 - l.1.1 = 0
    · simp [animateLine, hv]
    · simp [animateLine, hv, h]

/-- `start-expand` at proportion 0 reproduces an axis-aligned line, provided
the easing function fixes 0. -/
theorem animateLine_start_expand_zero (easeOutElastic : ℚ → ℚ)
    (hease : easeOutElastic 0 = 0) (l : LineQ)
    (hax : l.2.1 - l.1.1 = 0 ∨ l.2.2 - l.1.2 = 0) :
    animateLine easeOutElastic l "start-expand" 0 = l := by
  rcases hax with h | h
  · simp [animateLine, h, hease]
  · by_cases hv : l.2.1 - l.1.1 = 0
    · simp [animateLine, hv, hease]
    · simp [animateLine, hv, h, hease]

/-! ## C9: diagonal lines are passed through unmodified -/

/-- C9: for every line whose two coordinate deltas are both nonzero (neither
purely vertical nor purely horizontal), `animateLine` returns the line
unmodified for every animation type and every proportion — the animation is a
no-op on diagonal lines, never an error. -/
theorem C9_diagonal_line_noop (easeOutElastic : ℚ → ℚ) (l : LineQ) (ty : String)
    (proportion : ℚ) (h1 : l.2.1 - l.1.1 ≠ 0) (h2 : l.2.2 - l.1.2 ≠ 0) :
    animateLine easeOutElastic l ty proportion = l := by
  unfold animateLine
  simp [h1, h2]

theorem C9_diagonal_line_noop_witness :
    animateLine id ((0, 0), (1, 2)) "start-suck" (1/2) = ((0, 0), (1, 2)) :=
  C9_diagonal_line_noop id ((0, 0), (1, 2)) "start-suck" (1/2) (by norm_num) (by norm_num)

/-! ## C6 and C2: the palette-ratio walk -/

/-- The walk with an arbitrary starting index: if the prefix weights all stay
at or below the remaining value and the `k`-th weight exceeds it, the walk
stops exactly at offset `k`. -/
theorem colorPalleteIndexGo_hits (ratios : List ℚ) :
    ∀ (v : ℚ) (i : ℤ) (k : ℕ), k < ratios.length →
      (∀ j, j < k → ratios.getD j 0 ≤ v - (ratios.take j).sum) →
      v - (ratios.take k).sum < ratios.getD k 0 →
      colorPalleteIndexGo ratios v i = i + k := by
  induction ratios with
  | nil => intro v i k hk _ _; simp at hk
  | cons r rest ih =>
    intro v i k hk hbefore hat
    cases k with
    | zero =>
      simp only [List.take_zero, List.sum_nil, sub_zero, List.getD_cons_zero] at hat
      simp [colorPalleteIndexGo, hat]
    | succ k =>
      have h0 : r ≤ v := by simpa using hbefore 0 (Nat.succ_pos k)
      rw [show colorPalleteIndexGo (r :: rest) v i
            = colorPalleteIndexGo rest (v - r) (i + 1) by
          simp [colorPalleteIndexGo, not_lt.mpr h0]]
      rw [ih (v - r) (i + 1) k (by simpa using hk)
          (fun j hj => by
            have := hbefore (j + 1) (by omega)
            simp only [List.getD_cons_succ, List.take_succ_cons, List.sum_cons] at this
            linarith)
          (by
            simp only [List.getD_cons_succ, List.take_succ_cons, List.sum_cons] at hat
            linarith)]
      push_cast
      ring

/-- The walk with an arbitrary starting index: if every weight stays at or
below the remaining value, the loop exhausts and returns `-1`. -/
theorem colorPalleteIndexGo_exhausts (ratios : List ℚ) :
    ∀ (v : ℚ) (i : ℤ),
      (∀ j, j < ratios.length → ratios.getD j 0 ≤ v - (ratios.take j).sum) →
      colorPalleteIndexGo ratios v i = -1 := by
  induction ratios with
  | nil => intro v i _; simp [colorPalleteIndexGo]
  | cons r rest ih =>
    intro v i hall
    have h0 : r ≤ v := by simpa using hall 0 (Nat.succ_pos rest.length)
    rw [show colorPalleteIndexGo (r :: rest) v i
          = colorPalleteIndexGo rest (v - r) (i + 1) by
        simp [colorPalleteIndexGo, not_lt.mpr h0]]
    exact ih (v - r) (i + 1) (fun j hj => by
      have := hall (j + 1) (by simpa using hj)
      simp only [List.getD_cons_succ, List.take_succ_cons, List.sum_cons] at this
      linarith)

/-- C6: absent a sprinkle override, palette selection walks the configured
`colorPalletesRatio` weights in order, subtracting each weight from the
normalized value, and returns the first index whose weight exceeds the
remaining value. -/
theorem C6_pallete_walk_first_index (colorPalletesRatio : List ℚ) (v : ℚ) (k : ℕ)
    (hk : k < colorPalletesRatio.length)
    (hbefore : ∀ j, j < k →
      colorPalletesRatio.getD j 0 ≤ v - (colorPalletesRatio.take j).sum)
    (hat : v - (colorPalletesRatio.take k).sum < colorPalletesRatio.getD k 0) :
    colorPalleteIndexOf colorPalletesRatio v = k := by
  unfold colorPalleteIndexOf
  rw [colorPalleteIndexGo_hits colorPalletesRatio v 0 k hk hbefore hat]
  ring

theorem C6_pallete_walk_first_index_witness :
    colorPalleteIndexOf [1/2, 1/2] (3/10) = 0 ∧
    colorPalleteIndexOf [1/2, 1/2] (7/10) = 1 :=
  ⟨C6_pallete_walk_first_index [1/2, 1/2] (3/10) 0 (by norm_num)
      (fun j hj => absurd hj (Nat.not_lt_zero j)) (by norm_num),
   C6_pallete_walk_first_index [1/2, 1/2] (7/10) 1 (by norm_num)
      (fun j hj => by interval_cases j; norm_num) (by norm_num)⟩

/-- C2: when the palette-ratio walk exhausts all weights without the
normalized value going below one of them, the palette index resolves to the
out-of-range sentinel `-1`, and the consuming
`colorPalletes[colorPalleteIndex].type` access in `rectProps` is an invalid
(out-of-bounds) access — modelled as the `none` result of the guarded
lookup. -/
theorem C2_pallete_exhaustion_invalid_access (colorPalletesRatio : List ℚ) (v : ℚ)
    (colorPalletes : List ColorPallete)
    (hall : ∀ j, j < colorPalletesRatio.length →
      colorPalletesRatio.getD j 0 ≤ v - (colorPalletesRatio.take j).sum) :
    colorPalleteIndexOf colorPalletesRatio v = -1 ∧
    palleteTypeAccess colorPalletes (colorPalleteIndexOf colorPalletesRatio v) = none := by
  have hidx : colorPalleteIndexOf colorPalletesRatio v = -1 :=
    colorPalleteIndexGo_exhausts colorPalletesRatio v 0 hall
  refine ⟨hidx, ?_⟩
  rw [hidx]
  unfold palleteTypeAccess
  norm_num

theorem C2_pallete_exhaustion_invalid_access_witness :
    colorPalleteIndexOf [1/2, 3/10] (9/10) = -1 ∧
    palleteTypeAccess [⟨[], [], "simple"⟩] (colorPalleteIndexOf [1/2, 3/10] (9/10)) = none :=
  C2_pallete_exhaustion_invalid_access [1/2, 3/10] (9/10) [⟨[], [], "simple"⟩]
    (fun j hj => by
      have hj2 : j < 2 := by simpa using hj
      interval_cases j <;> norm_num)

/-! ## C10: the timeline's children share the root's active window -/

theorem le_foldl_max_init : ∀ (ys : List ℚ) (a : ℚ), a ≤ ys.foldl max a := by
  intro ys
  induction ys with
  | nil => intro a; simp
  | cons y ys ih =>
    intro a
    calc a ≤ max a y := le_max_left a y
      _ ≤ (y :: ys).foldl max a := by simpa using ih (max a y)

theorem le_foldl_max_mem : ∀ (ys : List ℚ) (a x : ℚ), x ∈ ys → x ≤ ys.foldl max a := by
  intro ys
  induction ys with
  | nil => intro a x hx; simp at hx
  | cons y ys ih =>
    intro a x hx
    rcases List.mem_cons.mp hx with rfl | hx
    · calc x ≤ max a x := le_max_right a x
        _ ≤ ys.foldl max (max a x) := le_foldl_max_init ys (max a x)
        _ = (x :: ys).foldl max a := by simp
    · simpa using ih (max a y) x hx

/-- `Math.max(...)` over a nonempty list bounds each of its elements. -/
theorem le_listMax (l : List ℚ) (x : ℚ) (hx : x ∈ l) : x ≤ listMax l := by
  cases l with
  | nil => simp at hx
  | cons y ys =>
    rcases List.mem_cons.mp hx with rfl | hx
    · exact le_foldl_max_init ys x
    · exact le_foldl_max_mem ys y x hx

/-- C10: in the timeline animation tree built per regeneration, every breath
sub-animation satisfies `startDelayInTicks + durationInTicks +
endDelayInTicks = root durationInTicks`, and every sub-animation's
`endDelayInTicks` is nonnegative, because the root duration is the maximal
start delay plus the maximal breath duration — so all children share exactly
the root's active window. -/
theorem C10_timeline_children_lockstep (gene : AnimationGene)
    (rectProps : List (ℚ × ℚ)) :
    ∀ a ∈ (timelineAnimation gene rectProps).subAnimations,
      a.startDelayInTicks + a.durationInTicks + a.endDelayInTicks
          = (timelineAnimation gene rectProps).durationInTicks ∧
      0 ≤ a.endDelayInTicks := by
  intro a ha
  simp only [timelineAnimation, Animation.subAnimations, List.mem_map,
    List.mem_range] at ha
  obtain ⟨i, hi, rfl⟩ := ha
  have hmem : rectProps.getD i (0, 0) ∈ rectProps := by
    rw [List.getD_eq_getElem rectProps (0, 0) hi]
    exact List.getElem_mem hi
  have h1 : (rectProps.getD i (0, 0)).1 ≤ listMax (rectProps.map Prod.fst) :=
    le_listMax _ _ (List.mem_map_of_mem Prod.fst hmem)
  have h2 : (rectProps.getD i (0, 0)).2 ≤ listMax (rectProps.map Prod.snd) :=
    le_listMax _ _ (List.mem_map_of_mem Prod.snd hmem)
  constructor
  · simp only [Animation.startDelayInTicks, Animation.durationInTicks,
      Animation.endDelayInTicks, timelineAnimation]
    ring
  · simp only [Animation.endDelayInTicks]
    linarith

theorem C10_timeline_children_lockstep_witness :
    (Animation.node 1 2 2 "breath" 0 []).startDelayInTicks
        + (Animation.node 1 2 2 "breath" 0 []).durationInTicks
        + (Animation.node 1 2 2 "breath" 0 []).endDelayInTicks
      = (timelineAnimation ⟨1000, 0⟩ [(1, 2), (3, 1)]).durationInTicks ∧
    0 ≤ (Animation.node 1 2 2 "breath" 0 []).endDelayInTicks :=
  C10_timeline_children_lockstep ⟨1000, 0⟩ [(1, 2), (3, 1)]
    (Animation.node 1 2 2 "breath" 0 [])
    (by
      refine List.mem_cons.mpr (Or.inl ?_)
      simp [listMax]
      norm_num)

/-! ## C7: the 2×2 block special case -/

/-- C7: on every 2×2 block (`bottomRight - topLeft = (1,1)`, arbitrary
`topLeft = (a,b)`) and for every bias, the partitioner consumes one coin
sample and, without recursing (fuel untouched, counter advanced by exactly
one), splits the block exactly in half along the chosen axis: a vertical
coin-flip outcome (`s k > ratio`) returns the two column lines
`[(a,b),(a,b+1)]` and `[(a+1,b),(a+1,b+1)]`, a horizontal outcome the two
row lines `[(a,b),(a+1,b)]` and `[(a,b+1),(a+1,b+1)]`; in either
orientation the two half-rectangle lines are non-overlapping and together
cover the block — every cell is covered by exactly one of them.  (The
claim's `partition([0,0],[1,1],0.5)` instance is the witness.) -/
theorem C7_two_by_two_split (s : ℕ → ℚ) (fuel k : ℕ) (a b : ℤ) (ratio : ℚ)
    (hfuel : 1 ≤ fuel) :
    generateGridPartitioningInGridUnits s fuel (a, b) (a + 1, b + 1) ratio k
        = some ((if ratio < s k then
            [((a, b), (a, b + 1)), ((a + 1, b), (a + 1, b + 1))]
          else
            [((a, b), (a + 1, b)), ((a, b + 1), (a + 1, b + 1))]), k + 1) ∧
    (∀ c : Cord, covers ((a, b), (a + 1, b + 1)) c →
      List.countP (fun l => decide (covers l c))
        ([((a, b), (a, b + 1)), ((a + 1, b), (a + 1, b + 1))] : List LineZ) = 1) ∧
    (∀ c : Cord, covers ((a, b), (a + 1, b + 1)) c →
      List.countP (fun l => decide (covers l c))
        ([((a, b), (a + 1, b)), ((a, b + 1), (a + 1, b + 1))] : List LineZ) = 1) := by
  obtain ⟨m, rfl⟩ : ∃ m, fuel = m + 1 := ⟨fuel - 1, by omega⟩
  refine ⟨?_, ?_, ?_⟩
  · rw [generateGridPartitioningInGridUnits]
    by_cases hv : ratio < s k
    · norm_num [gt_iff_lt, hv]
    · norm_num [gt_iff_lt, hv]
  · rintro ⟨x, y⟩ hc
    have hc' : a ≤ x ∧ x ≤ a + 1 ∧ b ≤ y ∧ y ≤ b + 1 := by
      simpa [covers] using hc
    rw [List.countP_cons, List.countP_cons, List.countP_nil]
    simp only [covers, decide_eq_true_eq]
    split_ifs <;> omega
  · rintro ⟨x, y⟩ hc
    have hc' : a ≤ x ∧ x ≤ a + 1 ∧ b ≤ y ∧ y ≤ b + 1 := by
      simpa [covers] using hc
    rw [List.countP_cons, List.countP_cons, List.countP_nil]
    simp only [covers, decide_eq_true_eq]
    split_ifs <;> omega

theorem C7_two_by_two_split_witness :
    (generateGridPartitioningInGridUnits (fun _ => 9/10) 1 (0, 0) (1, 1) (1/2) 0
        = some ([((0, 0), (0, 1)), ((1, 0), (1, 1))], 1) ∧
     generateGridPartitioningInGridUnits (fun _ => 1/10) 1 (0, 0) (1, 1) (1/2) 0
        = some ([((0, 0), (1, 0)), ((0, 1), (1, 1))], 1)) ∧
    List.countP (fun l => decide (covers l (1, 0)))
        ([((0, 0), (0, 1)), ((1, 0), (1, 1))] : List LineZ) = 1 ∧
    List.countP (fun l => decide (covers l (1, 0)))
        ([((0, 0), (1, 0)), ((0, 1), (1, 1))] : List LineZ) = 1 := by
  have hv := C7_two_by_two_split (fun _ => 9/10) 1 0 0 0 (1/2) (le_refl 1)
  have hh := C7_two_by_two_split (fun _ => 1/10) 1 0 0 0 (1/2) (le_refl 1)
  refine ⟨⟨?_, ?_⟩, hv.2.1 (1, 0) (by decide), hv.2.2 (1, 0) (by decide)⟩
  · have h1 := hv.1
    norm_num at h1 ⊢
    exact h1
  · have h1 := hh.1
    norm_num at h1 ⊢
    exact h1

/-! ## C3: loop idempotence of the timeline evaluation -/

/-- C3: for every line sequence, every animation tree whose root has positive
total duration `completeTicksDuration = startDelayInTicks + durationInTicks +
endDelayInTicks`, and every tick ≥ 0, evaluating
`getAnimatedLinesWithAnimations` at `tick + completeTicksDuration` yields the
same line geometry as evaluating at `tick`. -/
theorem C3_loop_idempotence (easeOutElastic : ℚ → ℚ) (lines : List LineQ)
    (tick : ℚ) (anim : Animation) (_htick : 0 ≤ tick)
    (hpos : 0 < anim.startDelayInTicks + anim.durationInTicks + anim.endDelayInTicks) :
    getAnimatedLinesWithAnimations easeOutElastic lines
        (tick + (anim.startDelayInTicks + anim.durationInTicks + anim.endDelayInTicks))
        anim
      = getAnimatedLinesWithAnimations easeOutElastic lines tick anim := by
  obtain ⟨sd, du, ed, ty, li, subs⟩ := anim
  simp only [Animation.startDelayInTicks, Animation.durationInTicks,
    Animation.endDelayInTicks] at hpos ⊢
  rw [getAnimatedLinesWithAnimations, getAnimatedLinesWithAnimations,
    jsMod_add_cycle tick (sd + du + ed) (ne_of_gt hpos)]

theorem C3_loop_idempotence_witness :
    getAnimatedLinesWithAnimations id [((0, 0), (0, 10))] (7 + (2 + 40 + 1))
        (.node 2 40 1 "timeline" 0 [.node 0 40 0 "breath" 0 []])
      = getAnimatedLinesWithAnimations id [((0, 0), (0, 10))] 7
        (.node 2 40 1 "timeline" 0 [.node 0 40 0 "breath" 0 []]) := by
  have h := C3_loop_idempotence id [((0, 0), (0, 10))] 7
    (.node 2 40 1 "timeline" 0 [.node 0 40 0 "breath" 0 []])
    (by norm_num)
    (by simp [Animation.startDelayInTicks, Animation.durationInTicks,
          Animation.endDelayInTicks]; norm_num)
  simpa [Animation.startDelayInTicks, Animation.durationInTicks,
    Animation.endDelayInTicks] using h

/-! ## Branch lemmas for `getAnimatedLinesWithAnimations` -/

/-- Evaluation of a `breath` node whose (wrapped) relative tick falls in the
active window: the four-phase interpolation applies. -/
theorem getAnimated_breath_active (easeOutElastic : ℚ → ℚ) (lines : List LineQ)
    (sd du ed t r : ℚ) (li : ℕ) (subs : List Animation)
    (hr : jsMod t (sd + du + ed) = r) (hlo : sd ≤ r) (hhi : r < sd + du + ed - ed) :
    getAnimatedLinesWithAnimations easeOutElastic lines t (.node sd du ed "breath" li subs)
      = lines.map (fun l =>
          animateLine easeOutElastic l
            (animationSequence.getD (⌊(r - sd) / (du / 4)⌋).toNat "")
            (jsMod (r - sd) (du / 4) / (du / 4))) := by
  rw [getAnimatedLinesWithAnimations]
  simp only [hr]
  rw [if_neg (not_lt.mpr hlo), if_pos ⟨hlo, hhi⟩]
  simp

/-- Evaluation of any node whose (wrapped) relative tick falls in the
pre-start or post-end hold window: every line is held fully open via
`static` with proportion 1. -/
theorem getAnimated_hold_static (easeOutElastic : ℚ → ℚ) (lines : List LineQ)
    (sd du ed t r : ℚ) (ty : String) (li : ℕ) (subs : List Animation)
    (hdu : 0 ≤ du) (hr : jsMod t (sd + du + ed) = r)
    (hcase : r < sd ∨ sd + du + ed - ed ≤ r) :
    getAnimatedLinesWithAnimations easeOutElastic lines t (.node sd du ed ty li subs)
      = lines.map (fun l => animateLine easeOutElastic l "static" 1) := by
  rw [getAnimatedLinesWithAnimations]
  simp only [hr]
  rcases hcase with h | h
  · rw [if_pos h]
  · rw [if_neg (not_lt.mpr (by linarith : sd ≤ r)),
      if_neg (by rintro ⟨-, h2⟩; exact absurd h2 (not_lt.mpr h)),
      if_pos (show r ≥ sd + du + ed - ed from h)]

/-! ## C4: breath boundary continuity -/

/-- C4: for every list of axis-aligned lines and every `breath` node,
evaluating `getAnimatedLinesWithAnimations` at `tick = startDelay` and at
`tick = startDelay + duration` both yield the fully-open lines (the original
lines, i.e. the effect of `startRatio = 0, endRatio = 1`), which is also
exactly what the pre-start/post-end hold state (`static` with proportion 1)
produces — no visible pop at the window boundaries.  Requires the easing
function to fix 0, as the real `easeOutElastic` does. -/
theorem C4_breath_boundary_continuity (easeOutElastic : ℚ → ℚ)
    (hease : easeOutElastic 0 = 0) (lines : List LineQ)
    (hax : ∀ l ∈ lines, l.2.1 - l.1.1 = 0 ∨ l.2.2 - l.1.2 = 0)
    (sd du ed : ℚ) (hsd : 0 ≤ sd) (hdu : 0 < du) (hed : 0 ≤ ed)
    (li : ℕ) (subs : List Animation) :
    getAnimatedLinesWithAnimations easeOutElastic lines sd
        (.node sd du ed "breath" li subs) = lines ∧
    getAnimatedLinesWithAnimations easeOutElastic lines (sd + du)
        (.node sd du ed "breath" li subs) = lines ∧
    lines.map (fun l => animateLine easeOutElastic l "static" 1) = lines := by
  have hstatic : lines.map (fun l => animateLine easeOutElastic l "static" 1) = lines :=
    calc lines.map (fun l => animateLine easeOutElastic l "static" 1)
        = lines.map id :=
          List.map_congr_left (fun l hl => animateLine_static_one easeOutElastic l (hax l hl))
      _ = lines := List.map_id lines
  have hopen : lines.map (fun l =>
      animateLine easeOutElastic l (animationSequence.getD (⌊(0 : ℚ) / (du / 4)⌋).toNat "")
        (jsMod 0 (du / 4) / (du / 4))) = lines := by
    rw [show ((0 : ℚ) / (du / 4)) = 0 by simp, Int.floor_zero, Int.toNat_zero,
      jsMod_zero_left, zero_div]
    rw [show animationSequence.getD 0 "" = "start-expand" from rfl]
    calc lines.map (fun l => animateLine easeOutElastic l "start-expand" 0)
        = lines.map id :=
          List.map_congr_left
            (fun l hl => animateLine_start_expand_zero easeOutElastic hease l (hax l hl))
      _ = lines := List.map_id lines
  refine ⟨?_, ?_, hstatic⟩
  · rw [getAnimated_breath_active easeOutElastic lines sd du ed sd sd li subs
      (jsMod_eq_self sd (sd + du + ed) hsd (by linarith)) (le_refl sd) (by linarith)]
    simpa using hopen
  · rcases lt_or_eq_of_le hed with hed' | hed'
    · rw [getAnimated_hold_static easeOutElastic lines sd du ed (sd + du) (sd + du)
        "breath" li subs (le_of_lt hdu)
        (jsMod_eq_self (sd + du) (sd + du + ed) (by linarith) (by linarith))
        (Or.inr (by linarith))]
      exact hstatic
    · subst hed'
      rcases lt_or_eq_of_le hsd with hsd' | hsd'
      · rw [getAnimated_hold_static easeOutElastic lines sd du 0 (sd + du) 0
          "breath" li subs (le_of_lt hdu)
          (by rw [add_zero, jsMod_self_eq_zero (sd + du) (by linarith)])
          (Or.inl hsd')]
        exact hstatic
      · subst hsd'
        rw [getAnimated_breath_active easeOutElastic lines 0 du 0 (0 + du) 0 li subs
          (by rw [add_zero, zero_add, jsMod_self_eq_zero du hdu])
          (le_refl 0) (by linarith)]
        simpa using hopen

theorem C4_breath_boundary_continuity_witness :
    getAnimatedLinesWithAnimations id [((0, 0), (0, 10))] 2
        (.node 2 40 1 "breath" 0 []) = [((0, 0), (0, 10))] ∧
    getAnimatedLinesWithAnimations id [((0, 0), (0, 10))] (2 + 40)
        (.node 2 40 1 "breath" 0 []) = [((0, 0), (0, 10))] ∧
    [((0, 0), (0, 10))].map (fun l => animateLine id l "static" 1)
        = [((0, 0), (0, 10))] :=
  C4_breath_boundary_continuity id rfl [((0, 0), (0, 10))]
    (by intro l hl; simp at hl; subst hl; norm_num)
    2 40 1 (by norm_num) (by norm_num) (by norm_num) 0 []

/-! ## C5: the four equal breath sub-phases -/

/-- C5: in the active phase of a `breath` node the duration is subdivided
into the four equal-length sequential sub-phases `start-expand`,
`start-suck`, `end-suck`, `end-expand`; when the relative tick lies in the
`k`-th quarter (`k < 4`), each line is animated with that sub-phase and with
`proportion` equal to the fractional progress within the quarter.  (In
particular `duration = 40` at relative tick 5 gives `start-expand` at
proportion `1/2`, i.e. `startRatio = easeOutElastic 0.5`, `endRatio = 1`.) -/
theorem C5_breath_subphases (easeOutElastic : ℚ → ℚ) (lines : List LineQ)
    (sd du ed t : ℚ) (li : ℕ) (subs : List Animation) (k : ℕ)
    (hsd : 0 ≤ sd) (hdu : 0 < du) (hed : 0 ≤ ed) (hk : k < 4)
    (hlo : sd + (k : ℚ) * (du / 4) ≤ t) (hhi : t < sd + ((k : ℚ) + 1) * (du / 4)) :
    getAnimatedLinesWithAnimations easeOutElastic lines t (.node sd du ed "breath" li subs)
      = lines.map (fun l =>
          animateLine easeOutElastic l (animationSequence.getD k "")
            ((t - sd - (k : ℚ) * (du / 4)) / (du / 4))) := by
  have hq : 0 < du / 4 := by positivity
  have hk4 : ((k : ℚ) + 1) * (du / 4) ≤ du := by
    have : ((k : ℚ) + 1) ≤ 4 := by
      have : (k : ℚ) ≤ 3 := by exact_mod_cast Nat.lt_succ_iff.mp hk
      linarith
    calc ((k : ℚ) + 1) * (du / 4) ≤ 4 * (du / 4) :=
          mul_le_mul_of_nonneg_right this (le_of_lt hq)
      _ = du := by ring
  have hknn : (0 : ℚ) ≤ (k : ℚ) * (du / 4) := by positivity
  have ht0 : 0 ≤ t := by linarith
  have httop : t < sd + du + ed := by linarith
  rw [getAnimated_breath_active easeOutElastic lines sd du ed t t li subs
    (jsMod_eq_self t (sd + du + ed) ht0 httop) (by linarith) (by linarith)]
  have hfl : ⌊(t - sd) / (du / 4)⌋ = (k : ℤ) := by
    rw [Int.floor_eq_iff]
    constructor
    · rw [le_div_iff₀ hq]; push_cast; linarith
    · rw [div_lt_iff₀ hq]; push_cast; linarith
  have hmod : jsMod (t - sd) (du / 4) = t - sd - (k : ℚ) * (du / 4) := by
    rw [jsMod_eq_sub (t - sd) (du / 4) (k : ℤ) hq (by push_cast; linarith)
      (by push_cast; linarith)]
    push_cast
    ring
  rw [hfl, hmod]
  simp

theorem C5_breath_subphases_witness :
    getAnimatedLinesWithAnimations id [((0, 0), (0, 10))] 5 (.node 0 40 0 "breath" 0 [])
      = [((0, 0), (0, 10))].map (fun l =>
          animateLine id l (animationSequence.getD 0 "") ((5 - 0 - 0 * (40 / 4)) / (40 / 4))) :=
  C5_breath_subphases id [((0, 0), (0, 10))] 0 40 0 5 0 [] 0 (le_refl 0) (by norm_num)
    (le_refl 0) (by norm_num) (by norm_num) (by norm_num)

/-! ## C8: the Rect Converter's per-line arithmetic -/

/-- Index-wise description of `convertGridLinesToRects`, read off the two
`map`s in the source. -/
theorem convertGridLinesToRects_getD (cfg : GridCfg) (lines : List LineQ)
    (lineProps : List (ℚ × ℚ)) (i : ℕ) (hi : i < lines.length) :
    (convertGridLinesToRects cfg lines lineProps).getD i ((0, 0), (0, 0))
      = (((gridTopLeft cfg).1
            + (lines.getD i ((0, 0), (0, 0))).1.1 * (cfg.unitSize.1 + cfg.gap),
          (gridTopLeft cfg).2
            + (lines.getD i ((0, 0), (0, 0))).1.2 * (cfg.unitSize.2 + cfg.gap)),
         ((gridTopLeft cfg).1
            + (((lines.getD i ((0, 0), (0, 0))).2.1 + (lineProps.getD i (0, 0)).1)
                * (cfg.unitSize.1 + cfg.gap) - cfg.gap),
          (gridTopLeft cfg).2
            + (((lines.getD i ((0, 0), (0, 0))).2.2 + (lineProps.getD i (0, 0)).2)
                * (cfg.unitSize.2 + cfg.gap) - cfg.gap))) := by
  unfold convertGridLinesToRects
  rw [List.getD_eq_getElem _ _ (by simpa using hi)]
  simp

/-- The converter's output has the same length as its input (order-preserving
index correspondence). -/
theorem convertGridLinesToRects_length (cfg : GridCfg) (lines : List LineQ)
    (lineProps : List (ℚ × ℚ)) :
    (convertGridLinesToRects cfg lines lineProps).length = lines.length := by
  unfold convertGridLinesToRects
  simp

/-- C8 (amended): `convertGridLinesToRects` is deterministic and
order-preserving; for every index `i` the near corner is the grid-unit
endpoint scaled by `(unitSize + gap)` per axis plus the centering offset, and
the far corner is the fully-open far edge `(l2 + 1) * (unitSize + gap) - gap`
shifted inward by `(1 - jitterRatio) * (unitSize + gap)` (not by
`(1 - jitterRatio) * (unitSize + gap) - gap`, which matches the code only
when `unitSize = gap`). -/
theorem C8_convert_formula (cfg : GridCfg) (lines : List LineQ)
    (lineProps : List (ℚ × ℚ)) :
    (convertGridLinesToRects cfg lines lineProps).length = lines.length ∧
    ∀ i, i < lines.length →
      (convertGridLinesToRects cfg lines lineProps).getD i ((0, 0), (0, 0))
        = (((gridTopLeft cfg).1
              + (lines.getD i ((0, 0), (0, 0))).1.1 * (cfg.unitSize.1 + cfg.gap),
            (gridTopLeft cfg).2
              + (lines.getD i ((0, 0), (0, 0))).1.2 * (cfg.unitSize.2 + cfg.gap)),
           ((gridTopLeft cfg).1
              + ((((lines.getD i ((0, 0), (0, 0))).2.1 + 1) * (cfg.unitSize.1 + cfg.gap)
                   - cfg.gap)
                 - (1 - (lineProps.getD i (0, 0)).1) * (cfg.unitSize.1 + cfg.gap)),
            (gridTopLeft cfg).2
              + ((((lines.getD i ((0, 0), (0, 0))).2.2 + 1) * (cfg.unitSize.2 + cfg.gap)
                   - cfg.gap)
                 - (1 - (lineProps.getD i (0, 0)).2) * (cfg.unitSize.2 + cfg.gap)))) := by
  refine ⟨convertGridLinesToRects_length cfg lines lineProps, fun i hi => ?_⟩
  rw [convertGridLinesToRects_getD cfg lines lineProps i hi]
  refine Prod.ext (Prod.ext ?_ ?_) (Prod.ext ?_ ?_) <;> simp <;> ring

/-- C8 counterexample: with `unitSize = (2,2)` and `gap = 1` (so
`unitSize ≠ gap`), the converter of the source differs from the converter
described word-for-word by the claim (far corner shifted inward by
`(1 - jitterRatio) * (unitSize + gap) - gap` from the scaled endpoint). -/
theorem C8_spec_formula_counterexample :
    convertGridLinesToRects ⟨(2, 2), (1, 1), 1, 2, 2⟩ [((0, 0), (0, 0))] [(1, 1)]
      ≠ convertGridLinesToRectsSpec ⟨(2, 2), (1, 1), 1, 2, 2⟩ [((0, 0), (0, 0))] [(1, 1)] := by
  intro h
  norm_num [convertGridLinesToRects, convertGridLinesToRectsSpec, gridTopLeft,
    totalGridBounds] at h

theorem C8_convert_formula_witness :
    (convertGridLinesToRects ⟨(2, 2), (1, 1), 1, 2, 2⟩ [((0, 0), (0, 0))] [(1, 1)]).length
        = 1 ∧
    (convertGridLinesToRects ⟨(2, 2), (1, 1), 1, 2, 2⟩
        [((0, 0), (0, 0))] [(1, 1)]).getD 0 ((0, 0), (0, 0))
      = ((0 + 0 * (2 + 1), 0 + 0 * (2 + 1)),
         (0 + (((0 : ℚ) + 1) * (2 + 1) - 1 - (1 - 1) * (2 + 1)),
          0 + (((0 : ℚ) + 1) * (2 + 1) - 1 - (1 - 1) * (2 + 1)))) := by
  have h := C8_convert_formula ⟨(2, 2), (1, 1), 1, 2, 2⟩ [((0, 0), (0, 0))] [(1, 1)]
  refine ⟨h.1, ?_⟩
  rw [h.2 0 (by norm_num)]
  norm_num [gridTopLeft, totalGridBounds]

/-! ## C1: the tiling invariant of the grid partitioner -/

/-- Assembling a vertical cut: a tiling of the columns left of `cut`, the
cut column itself, and a tiling of the columns right of `cut` tile the whole
box. -/
theorem tiles_assemble_vert (a b c d cut : ℤ) (ls1 ls2 : List LineZ)
    (hbd : b ≤ d) (hcut1 : a ≤ cut) (hcut2 : cut ≤ c)
    (hb1 : ∀ l ∈ ls1, lineInBox a b (cut - 1) d l)
    (hb2 : ∀ l ∈ ls2, lineInBox (cut + 1) b c d l)
    (hc1 : ∀ x y : ℤ, a ≤ x → x ≤ cut - 1 → b ≤ y → y ≤ d →
      ls1.countP (fun l => decide (covers l (x, y))) = 1)
    (hc2 : ∀ x y : ℤ, cut + 1 ≤ x → x ≤ c → b ≤ y → y ≤ d →
      ls2.countP (fun l => decide (covers l (x, y))) = 1) :
    (∀ l ∈ ls1 ++ ((cut, b), (cut, d)) :: ls2, lineInBox a b c d l) ∧
    (∀ x y : ℤ, a ≤ x → x ≤ c → b ≤ y → y ≤ d →
      (ls1 ++ ((cut, b), (cut, d)) :: ls2).countP
        (fun l => decide (covers l (x, y))) = 1) := by
  constructor
  · intro l hl
    rcases List.mem_append.mp hl with hl1 | hl2
    · have := hb1 l hl1
      unfold lineInBox at this ⊢
      omega
    · rcases List.mem_cons.mp hl2 with rfl | hl3
      · unfold lineInBox
        simp
        omega
      · have := hb2 l hl3
        unfold lineInBox at this ⊢
        omega
  · intro x y hx1 hx2 hy1 hy2
    rw [List.countP_append, List.countP_cons]
    rcases lt_trichotomy x cut with hx | rfl | hx
    · have h1 : ls1.countP (fun l => decide (covers l (x, y))) = 1 :=
        hc1 x y hx1 (by omega) hy1 hy2
      have h2 : ls2.countP (fun l => decide (covers l (x, y))) = 0 :=
        List.countP_eq_zero.mpr (fun l hl => by
          have := hb2 l hl
          unfold lineInBox at this
          simp [covers]
          omega)
      have h3 : (decide (covers ((cut, b), (cut, d)) (x, y))) = false := by
        simp [covers]
        omega
      rw [h1, h2, h3]
      simp
    · have h1 : ls1.countP (fun l => decide (covers l (x, y))) = 0 :=
        List.countP_eq_zero.mpr (fun l hl => by
          have := hb1 l hl
          unfold lineInBox at this
          simp [covers]
          omega)
      have h2 : ls2.countP (fun l => decide (covers l (x, y))) = 0 :=
        List.countP_eq_zero.mpr (fun l hl => by
          have := hb2 l hl
          unfold lineInBox at this
          simp [covers]
          omega)
      have h3 : (decide (covers ((x, b), (x, d)) (x, y))) = true := by
        simp [covers]
        omega
      rw [h1, h2, h3]
      simp
    · have h1 : ls1.countP (fun l => decide (covers l (x, y))) = 0 :=
        List.countP_eq_zero.mpr (fun l hl => by
          have := hb1 l hl
          unfold lineInBox at this
          simp [covers]
          omega)
      have h2 : ls2.countP (fun l => decide (covers l (x, y))) = 1 :=
        hc2 x y (by omega) hx2 hy1 hy2
      have h3 : (decide (covers ((cut, b), (cut, d)) (x, y))) = false := by
        simp [covers]
        omega
      rw [h1, h2, h3]
      simp

/-- Assembling a horizontal cut: the mirror image of `tiles_assemble_vert`. -/
theorem tiles_assemble_horz (a b c d cut : ℤ) (ls1 ls2 : List LineZ)
    (hac : a ≤ c) (hcut1 : b ≤ cut) (hcut2 : cut ≤ d)
    (hb1 : ∀ l ∈ ls1, lineInBox a b c (cut - 1) l)
    (hb2 : ∀ l ∈ ls2, lineInBox a (cut + 1) c d l)
    (hc1 : ∀ x y : ℤ, a ≤ x → x ≤ c → b ≤ y → y ≤ cut - 1 →
      ls1.countP (fun l => decide (covers l (x, y))) = 1)
    (hc2 : ∀ x y : ℤ, a ≤ x → x ≤ c → cut + 1 ≤ y → y ≤ d →
      ls2.countP (fun l => decide (covers l (x, y))) = 1) :
    (∀ l ∈ ls1 ++ ((a, cut), (c, cut)) :: ls2, lineInBox a b c d l) ∧
    (∀ x y : ℤ, a ≤ x → x ≤ c → b ≤ y → y ≤ d →
      (ls1 ++ ((a, cut), (c, cut)) :: ls2).countP
        (fun l => decide (covers l (x, y))) = 1) := by
  constructor
  · intro l hl
    rcases List.mem_append.mp hl with hl1 | hl2
    · have := hb1 l hl1
      unfold lineInBox at this ⊢
      omega
    · rcases List.mem_cons.mp hl2 with rfl | hl3
      · unfold lineInBox
        simp
        omega
      · have := hb2 l hl3
        unfold lineInBox at this ⊢
        omega
  · intro x y hx1 hx2 hy1 hy2
    rw [List.countP_append, List.countP_cons]
    rcases lt_trichotomy y cut with hy | rfl | hy
    · have h1 : ls1.countP (fun l => decide (covers l (x, y))) = 1 :=
        hc1 x y hx1 hx2 hy1 (by omega)
      have h2 : ls2.countP (fun l => decide (covers l (x, y))) = 0 :=
        List.countP_eq_zero.mpr (fun l hl => by
          have := hb2 l hl
          unfold lineInBox at this
          simp [covers]
          omega)
      have h3 : (decide (covers ((a, cut), (c, cut)) (x, y))) = false := by
        simp [covers]
        omega
      rw [h1, h2, h3]
      simp
    · have h1 : ls1.countP (fun l => decide (covers l (x, y))) = 0 :=
        List.countP_eq_zero.mpr (fun l hl => by
          have := hb1 l hl
          unfold lineInBox at this
          simp [covers]
          omega)
      have h2 : ls2.countP (fun l => decide (covers l (x, y))) = 0 :=
        List.countP_eq_zero.mpr (fun l hl => by
          have := hb2 l hl
          unfold lineInBox at this
          simp [covers]
          omega)
      have h3 : (decide (covers ((a, y), (c, y)) (x, y))) = true := by
        simp [covers]
        omega
      rw [h1, h2, h3]
      simp
    · have h1 : ls1.countP (fun l => decide (covers l (x, y))) = 0 :=
        List.countP_eq_zero.mpr (fun l hl => by
          have := hb1 l hl
          unfold lineInBox at this
          simp [covers]
          omega)
      have h2 : ls2.countP (fun l => decide (covers l (x, y))) = 1 :=
        hc2 x y hx1 hx2 (by omega) hy2
      have h3 : (decide (covers ((a, cut), (c, cut)) (x, y))) = false := by
        simp [covers]
        omega
      rw [h1, h2, h3]
      simp

/-- The partitioner's tiling invariant: with strictly positive unit-interval
samples, on any nonempty box every produced line stays inside the box with
ordered endpoints, and every cell of the box is covered by exactly one
produced line. -/
theorem partition_invariant (s : ℕ → ℚ) (hs : ∀ n, 0 < s n ∧ s n < 1) :
    ∀ (fuel : ℕ) (a b c d : ℤ) (ratio : ℚ) (k : ℕ) (L : List LineZ) (k' : ℕ),
      a ≤ c → b ≤ d →
      generateGridPartitioningInGridUnits s fuel (a, b) (c, d) ratio k = some (L, k') →
      (∀ l ∈ L, lineInBox a b c d l) ∧
      (∀ x y : ℤ, a ≤ x → x ≤ c → b ≤ y → y ≤ d →
        L.countP (fun l => decide (covers l (x, y))) = 1) := by
  intro fuel
  induction fuel with
  | zero =>
    intro a b c d ratio k L k' hac hbd h
    rw [generateGridPartitioningInGridUnits] at h
    exact absurd h (by simp)
  | succ fuel ih =>
    intro a b c d ratio k L k' hac hbd h
    rw [generateGridPartitioningInGridUnits] at h
    by_cases hdot : c - a = 0 ∧ d - b = 0
    · rw [if_pos (by simpa using hdot)] at h
      simp only [Option.some.injEq, Prod.mk.injEq] at h
      obtain ⟨rfl, rfl⟩ := h.symm
      constructor
      · intro l hl
        rcases List.mem_cons.mp hl with rfl | hl'
        · unfold lineInBox
          simp
          omega
        · simp at hl'
      · intro x y hx1 hx2 hy1 hy2
        rw [List.countP_cons, List.countP_nil]
        simp only [covers, decide_eq_true_eq]
        split_ifs <;> omega
    · rw [if_neg (by simpa using hdot)] at h
      simp only [] at h
      by_cases h12 : (c - a = 1 ∧ d - b = 0) ∨ (c - a = 0 ∧ d - b = 1)
      · rw [if_pos (by simpa using h12)] at h
        simp only [Option.some.injEq, Prod.mk.injEq] at h
        obtain ⟨rfl, rfl⟩ := h.symm
        constructor
        · intro l hl
          rcases List.mem_cons.mp hl with rfl | hl'
          · unfold lineInBox
            simp
            omega
          · rcases List.mem_cons.mp hl' with rfl | hl''
            · unfold lineInBox
              simp
              omega
            · simp at hl''
        · intro x y hx1 hx2 hy1 hy2
          rw [List.countP_cons, List.countP_cons, List.countP_nil]
          simp only [covers, decide_eq_true_eq]
          split_ifs <;> omega
      · rw [if_neg (by simpa using h12)] at h
        by_cases h22 : c - a = 1 ∧ d - b = 1
        · rw [if_pos (by simpa using h22)] at h
          by_cases hv : ratio < s k
          · rw [if_pos (by simpa using hv)] at h
            simp only [Option.some.injEq, Prod.mk.injEq] at h
            obtain ⟨rfl, rfl⟩ := h.symm
            constructor
            · intro l hl
              rcases List.mem_cons.mp hl with rfl | hl'
              · unfold lineInBox
                simp
                omega
              · rcases List.mem_cons.mp hl' with rfl | hl''
                · unfold lineInBox
                  simp
                  omega
                · simp at hl''
            · intro x y hx1 hx2 hy1 hy2
              rw [List.countP_cons, List.countP_cons, List.countP_nil]
              simp only [covers, decide_eq_true_eq]
              split_ifs <;> omega
          · rw [if_neg (by simpa using hv)] at h
            simp only [Option.some.injEq, Prod.mk.injEq] at h
            obtain ⟨rfl, rfl⟩ := h.symm
            constructor
            · intro l hl
              rcases List.mem_cons.mp hl with rfl | hl'
              · unfold lineInBox
                simp
                omega
              · rcases List.mem_cons.mp hl' with rfl | hl''
                · unfold lineInBox
                  simp
                  omega
                · simp at hl''
            · intro x y hx1 hx2 hy1 hy2
              rw [List.countP_cons, List.countP_cons, List.countP_nil]
              simp only [covers, decide_eq_true_eq]
              split_ifs <;> omega
        · rw [if_neg (by simpa using h22)] at h
          by_cases hv : ratio < s k
          · -- vertical cut
            simp only [gt_iff_lt, hv, decide_True, if_true, decide_eq_true_eq,
              ge_iff_le, sub_zero, add_zero] at h
            obtain ⟨hcl, hcr⟩ :=
              randomIntDraw_cut_bounds a c (s (k + 1)) hac (hs (k + 1)).1 (hs (k + 1)).2
            set cut : ℤ := randomIntDraw (a + 1) c (s (k + 1)) with hcutdef
            by_cases hTV : a ≤ cut - 1
            · rw [if_pos ⟨hTV, hbd⟩] at h
              cases hrec1 : generateGridPartitioningInGridUnits s fuel (a, b)
                  (cut - 1, d) (ratio + (1 - ratio) / 2) (k + 1 + 1) with
              | none => rw [hrec1] at h; exact absurd h (by simp)
              | some p1 =>
                obtain ⟨ls1, k3⟩ := p1
                rw [hrec1] at h
                simp only [] at h
                have inv1 := ih a b (cut - 1) d (ratio + (1 - ratio) / 2) (k + 1 + 1)
                  ls1 k3 hTV hbd hrec1
                by_cases hBV : cut + 1 ≤ c
                · rw [if_pos ⟨hBV, hbd⟩] at h
                  cases hrec2 : generateGridPartitioningInGridUnits s fuel (cut + 1, b)
                      (c, d) (ratio + (1 - ratio) / 2) k3 with
                  | none => rw [hrec2] at h; exact absurd h (by simp)
                  | some p2 =>
                    obtain ⟨ls2, k4⟩ := p2
                    rw [hrec2] at h
                    simp only [Option.some.injEq, Prod.mk.injEq] at h
                    obtain ⟨rfl, rfl⟩ := h.symm
                    have inv2 := ih (cut + 1) b c d (ratio + (1 - ratio) / 2) k3
                      ls2 k4 hBV hbd hrec2
                    exact tiles_assemble_vert a b c d cut ls1 ls2 hbd hcl hcr
                      inv1.1 inv2.1 inv1.2 inv2.2
                · rw [if_neg (fun hx => hBV hx.1)] at h
                  simp only [Option.some.injEq, Prod.mk.injEq] at h
                  obtain ⟨rfl, rfl⟩ := h.symm
                  exact tiles_assemble_vert a b c d cut ls1 [] hbd hcl hcr
                    inv1.1 (fun l hl => absurd hl (List.not_mem_nil l)) inv1.2
                    (fun x y hx1 hx2 _ _ => (by omega : False).elim)
            · rw [if_neg (fun hx => hTV hx.1)] at h
              simp only [] at h
              by_cases hBV : cut + 1 ≤ c
              · rw [if_pos ⟨hBV, hbd⟩] at h
                cases hrec2 : generateGridPartitioningInGridUnits s fuel (cut + 1, b)
                    (c, d) (ratio + (1 - ratio) / 2) (k + 1 + 1) with
                | none => rw [hrec2] at h; exact absurd h (by simp)
                | some p2 =>
                  obtain ⟨ls2, k4⟩ := p2
                  rw [hrec2] at h
                  simp only [Option.some.injEq, Prod.mk.injEq, List.nil_append] at h
                  obtain ⟨rfl, rfl⟩ := h.symm
                  have inv2 := ih (cut + 1) b c d (ratio + (1 - ratio) / 2) (k + 1 + 1)
                    ls2 k4 hBV hbd hrec2
                  have hres := tiles_assemble_vert a b c d cut [] ls2 hbd hcl hcr
                    (fun l hl => absurd hl (List.not_mem_nil l)) inv2.1
                    (fun x y hx1 hx2 _ _ => (by omega : False).elim) inv2.2
                  simpa using hres
              · rw [if_neg (fun hx => hBV hx.1)] at h
                simp only [Option.some.injEq, Prod.mk.injEq, List.nil_append] at h
                obtain ⟨rfl, rfl⟩ := h.symm
                have hres := tiles_assemble_vert a b c d cut [] [] hbd hcl hcr
                  (fun l hl => absurd hl (List.not_mem_nil l))
                  (fun l hl => absurd hl (List.not_mem_nil l))
                  (fun x y hx1 hx2 _ _ => (by omega : False).elim)
                  (fun x y hx1 hx2 _ _ => (by omega : False).elim)
                simpa using hres
          · -- horizontal cut
            simp only [gt_iff_lt, hv, decide_False, if_false, Bool.false_eq_true,
              decide_eq_true_eq, ge_iff_le, sub_zero, add_zero] at h
            obtain ⟨hcl, hcr⟩ :=
              randomIntDraw_cut_bounds b d (s (k + 1)) hbd (hs (k + 1)).1 (hs (k + 1)).2
            set cut : ℤ := randomIntDraw (b + 1) d (s (k + 1)) with hcutdef
            by_cases hTV : b ≤ cut - 1
            · rw [if_pos ⟨hac, hTV⟩] at h
              cases hrec1 : generateGridPartitioningInGridUnits s fuel (a, b)
                  (c, cut - 1) (ratio / 2) (k + 1 + 1) with
              | none => rw [hrec1] at h; exact absurd h (by simp)
              | some p1 =>
                obtain ⟨ls1, k3⟩ := p1
                rw [hrec1] at h
                simp only [] at h
                have inv1 := ih a b c (cut - 1) (ratio / 2) (k + 1 + 1)
                  ls1 k3 hac hTV hrec1
                by_cases hBV : cut + 1 ≤ d
                · rw [if_pos ⟨hac, hBV⟩] at h
                  cases hrec2 : generateGridPartitioningInGridUnits s fuel (a, cut + 1)
                      (c, d) (ratio / 2) k3 with
                  | none => rw [hrec2] at h; exact absurd h (by simp)
                  | some p2 =>
                    obtain ⟨ls2, k4⟩ := p2
                    rw [hrec2] at h
                    simp only [Option.some.injEq, Prod.mk.injEq] at h
                    obtain ⟨rfl, rfl⟩ := h.symm
                    have inv2 := ih a (cut + 1) c d (ratio / 2) k3 ls2 k4 hac hBV hrec2
                    exact tiles_assemble_horz a b c d cut ls1 ls2 hac hcl hcr
                      inv1.1 inv2.1 inv1.2 inv2.2
                · rw [if_neg (fun hx => hBV hx.2)] at h
                  simp only [Option.some.injEq, Prod.mk.injEq] at h
                  obtain ⟨rfl, rfl⟩ := h.symm
                  exact tiles_assemble_horz a b c d cut ls1 [] hac hcl hcr
                    inv1.1 (fun l hl => absurd hl (List.not_mem_nil l)) inv1.2
                    (fun x y _ _ hy1 hy2 => (by omega : False).elim)
            · rw [if_neg (fun hx => hTV hx.2)] at h
              simp only [] at h
              by_cases hBV : cut + 1 ≤ d
              · rw [if_pos ⟨hac, hBV⟩] at h
                cases hrec2 : generateGridPartitioningInGridUnits s fuel (a, cut + 1)
                    (c, d) (ratio / 2) (k + 1 + 1) with
                | none => rw [hrec2] at h; exact absurd h (by simp)
                | some p2 =>
                  obtain ⟨ls2, k4⟩ := p2
                  rw [hrec2] at h
                  simp only [Option.some.injEq, Prod.mk.injEq, List.nil_append] at h
                  obtain ⟨rfl, rfl⟩ := h.symm
                  have inv2 := ih a (cut + 1) c d (ratio / 2) (k + 1 + 1)
                    ls2 k4 hac hBV hrec2
                  have hres := tiles_assemble_horz a b c d cut [] ls2 hac hcl hcr
                    (fun l hl => absurd hl (List.not_mem_nil l)) inv2.1
                    (fun x y _ _ hy1 hy2 => (by omega : False).elim) inv2.2
                  simpa using hres
              · rw [if_neg (fun hx => hBV hx.2)] at h
                simp only [Option.some.injEq, Prod.mk.injEq, List.nil_append] at h
                obtain ⟨rfl, rfl⟩ := h.symm
                have hres := tiles_assemble_horz a b c d cut [] [] hac hcl hcr
                  (fun l hl => absurd hl (List.not_mem_nil l))
                  (fun l hl => absurd hl (List.not_mem_nil l))
                  (fun x y _ _ hy1 hy2 => (by omega : False).elim)
                  (fun x y _ _ hy1 hy2 => (by omega : False).elim)
                simpa using hres

/-- Two distinct positions both satisfying a predicate force a count of at
least two. -/
theorem two_le_countP_of_lt {α : Type} (d : α) (p : α → Bool) :
    ∀ (l : List α) (i j : ℕ), i < j → j < l.length →
      p (l.getD i d) = true → p (l.getD j d) = true → 2 ≤ l.countP p := by
  intro l
  induction l with
  | nil => intro i j hij hj _ _; simp at hj
  | cons x xs ihl =>
    intro i j hij hj hpi hpj
    cases j with
    | zero => omega
    | succ j =>
      have hj' : j < xs.length := by simpa using hj
      have hpj' : p (xs.getD j d) = true := by simpa using hpj
      cases i with
      | zero =>
        have hpi' : p x = true := by simpa using hpi
        have hpos : 0 < xs.countP p := by
          rw [List.countP_pos_iff]
          refine ⟨xs.getD j d, ?_, hpj'⟩
          rw [List.getD_eq_getElem xs d hj']
          exact List.getElem_mem hj'
        rw [List.countP_cons_of_pos _ _ hpi']
        omega
      | succ i =>
        have := ihl i j (by omega) hj' (by simpa using hpi) hpj'
        rw [List.countP_cons]
        omega

theorem int_cast_mul_le (m n : ℤ) (q : ℚ) (h : m ≤ n) (hq : 0 ≤ q) :
    (m : ℚ) * q ≤ (n : ℚ) * q :=
  mul_le_mul_of_nonneg_right (by exact_mod_cast h) hq

/-- The pixel rectangle the converter produces for the `i`-th partition line
when every jitter ratio is 1 (the default `gitter = [0,0]` configuration). -/
theorem rects_getD_of_partition (cfg : GridCfg) (L : List LineZ) (i : ℕ)
    (hi : i < L.length) :
    (convertGridLinesToRects cfg (L.map toQLine) (List.replicate L.length (1, 1))).getD i
        ((0, 0), (0, 0))
      = (((gridTopLeft cfg).1
            + ((L.getD i ((0, 0), (0, 0))).1.1 : ℚ) * (cfg.unitSize.1 + cfg.gap),
          (gridTopLeft cfg).2
            + ((L.getD i ((0, 0), (0, 0))).1.2 : ℚ) * (cfg.unitSize.2 + cfg.gap)),
         ((gridTopLeft cfg).1
            + (((L.getD i ((0, 0), (0, 0))).2.1 : ℚ) + 1) * (cfg.unitSize.1 + cfg.gap)
            - cfg.gap,
          (gridTopLeft cfg).2
            + (((L.getD i ((0, 0), (0, 0))).2.2 : ℚ) + 1) * (cfg.unitSize.2 + cfg.gap)
            - cfg.gap)) := by
  rw [convertGridLinesToRects_getD cfg _ _ i (by simpa using hi)]
  have h1 : (L.map toQLine).getD i ((0, 0), (0, 0)) = toQLine (L.getD i ((0, 0), (0, 0))) := by
    rw [List.getD_eq_getElem _ _ (by simpa using hi), List.getElem_map,
      List.getD_eq_getElem _ _ hi]
  have h2 : (List.replicate L.length ((1 : ℚ), (1 : ℚ))).getD i (0, 0) = (1, 1) := by
    rw [List.getD_eq_getElem _ _ (by simpa using hi), List.getElem_replicate]
  rw [h1, h2]
  simp [toQLine]
  constructor <;> ring

/-- C1 (amended): for every grid bound `[0,0]..[w-1,h-1]` with `w,h ≥ 1`,
positive unit sizes and gap, and every outcome sequence of the seeded random
source all of whose unit samples are strictly positive, whenever the
partitioner terminates, the rectangles produced by `convertGridLinesToRects`
from its line sequence (at the default jitter ratio 1) exactly tile the
scaled grid bound: no two rectangles share a point, every rectangle lies
inside the bound, and every point of the bound not covered by a rectangle
lies in one of the inter-unit gap bands of width `gap`.  (A zero sample at a
degenerate empty-range cut draw can instead produce duplicate or
out-of-bound rectangles — see the counterexample.) -/
theorem C1_partition_rects_tile (cfg : GridCfg) (s : ℕ → ℚ)
    (hs : ∀ n, 0 < s n ∧ s n < 1)
    (hw : 1 ≤ cfg.gridSizeInUnits.1) (hh : 1 ≤ cfg.gridSizeInUnits.2)
    (hu1 : 0 < cfg.unitSize.1) (hu2 : 0 < cfg.unitSize.2) (hg : 0 < cfg.gap)
    (ratio : ℚ) (fuel k k' : ℕ) (L : List LineZ)
    (hpart : generateGridPartitioningInGridUnits s fuel (0, 0)
        (cfg.gridSizeInUnits.1 - 1, cfg.gridSizeInUnits.2 - 1) ratio k = some (L, k')) :
    TilesScaledBound cfg
      (convertGridLinesToRects cfg (L.map toQLine) (List.replicate L.length (1, 1))) := by
  obtain ⟨hbnd, hcnt⟩ := partition_invariant s hs fuel 0 0
    (cfg.gridSizeInUnits.1 - 1) (cfg.gridSizeInUnits.2 - 1) ratio k L k'
    (by omega) (by omega) hpart
  have hq1 : (0 : ℚ) < cfg.unitSize.1 + cfg.gap := by linarith
  have hq2 : (0 : ℚ) < cfg.unitSize.2 + cfg.gap := by linarith
  have htot1 : (totalGridBounds cfg).1
      = (cfg.gridSizeInUnits.1 : ℚ) * (cfg.unitSize.1 + cfg.gap) - cfg.gap := by
    unfold totalGridBounds
    ring
  have htot2 : (totalGridBounds cfg).2
      = (cfg.gridSizeInUnits.2 : ℚ) * (cfg.unitSize.2 + cfg.gap) - cfg.gap := by
    unfold totalGridBounds
    ring
  have hrlen : (convertGridLinesToRects cfg (L.map toQLine)
      (List.replicate L.length (1, 1))).length = L.length := by
    rw [convertGridLinesToRects_length]
    simp
  refine ⟨?_, ?_, ?_⟩
  · -- no two rectangles share a point
    intro i j hij hj p hpi hpj
    rw [hrlen] at hj
    have hiL : i < L.length := lt_trans hij hj
    rw [rects_getD_of_partition cfg L i hiL] at hpi
    rw [rects_getD_of_partition cfg L j hj] at hpj
    simp only [inRect] at hpi hpj
    obtain ⟨hpi1, hpi2, hpi3, hpi4⟩ := hpi
    obtain ⟨hpj1, hpj2, hpj3, hpj4⟩ := hpj
    have hmi : L.getD i ((0, 0), (0, 0)) ∈ L := by
      rw [List.getD_eq_getElem L _ hiL]
      exact List.getElem_mem hiL
    have hmj : L.getD j ((0, 0), (0, 0)) ∈ L := by
      rw [List.getD_eq_getElem L _ hj]
      exact List.getElem_mem hj
    have hbi := hbnd _ hmi
    have hbj := hbnd _ hmj
    unfold lineInBox at hbi hbj
    have hx1 : (L.getD j ((0, 0), (0, 0))).1.1 ≤ (L.getD i ((0, 0), (0, 0))).2.1 := by
      by_contra hcon
      push_neg at hcon
      have hstep : (((L.getD i ((0, 0), (0, 0))).2.1 : ℚ) + 1) * (cfg.unitSize.1 + cfg.gap)
          ≤ ((L.getD j ((0, 0), (0, 0))).1.1 : ℚ) * (cfg.unitSize.1 + cfg.gap) := by
        have := int_cast_mul_le ((L.getD i ((0, 0), (0, 0))).2.1 + 1)
          ((L.getD j ((0, 0), (0, 0))).1.1) (cfg.unitSize.1 + cfg.gap)
          (by omega) (le_of_lt hq1)
        push_cast at this
        linarith
      linarith
    have hx2 : (L.getD i ((0, 0), (0, 0))).1.1 ≤ (L.getD j ((0, 0), (0, 0))).2.1 := by
      by_contra hcon
      push_neg at hcon
      have hstep : (((L.getD j ((0, 0), (0, 0))).2.1 : ℚ) + 1) * (cfg.unitSize.1 + cfg.gap)
          ≤ ((L.getD i ((0, 0), (0, 0))).1.1 : ℚ) * (cfg.unitSize.1 + cfg.gap) := by
        have := int_cast_mul_le ((L.getD j ((0, 0), (0, 0))).2.1 + 1)
          ((L.getD i ((0, 0), (0, 0))).1.1) (cfg.unitSize.1 + cfg.gap)
          (by omega) (le_of_lt hq1)
        push_cast at this
        linarith
      linarith
    have hy1 : (L.getD j ((0, 0), (0, 0))).1.2 ≤ (L.getD i ((0, 0), (0, 0))).2.2 := by
      by_contra hcon
      push_neg at hcon
      have hstep : (((L.getD i ((0, 0), (0, 0))).2.2 : ℚ) + 1) * (cfg.unitSize.2 + cfg.gap)
          ≤ ((L.getD j ((0, 0), (0, 0))).1.2 : ℚ) * (cfg.unitSize.2 + cfg.gap) := by
        have := int_cast_mul_le ((L.getD i ((0, 0), (0, 0))).2.2 + 1)
          ((L.getD j ((0, 0), (0, 0))).1.2) (cfg.unitSize.2 + cfg.gap)
          (by omega) (le_of_lt hq2)
        push_cast at this
        linarith
      linarith
    have hy2 : (L.getD i ((0, 0), (0, 0))).1.2 ≤ (L.getD j ((0, 0), (0, 0))).2.2 := by
      by_contra hcon
      push_neg at hcon
      have hstep : (((L.getD j ((0, 0), (0, 0))).2.2 : ℚ) + 1) * (cfg.unitSize.2 + cfg.gap)
          ≤ ((L.getD i ((0, 0), (0, 0))).1.2 : ℚ) * (cfg.unitSize.2 + cfg.gap) := by
        have := int_cast_mul_le ((L.getD j ((0, 0), (0, 0))).2.2 + 1)
          ((L.getD i ((0, 0), (0, 0))).1.2) (cfg.unitSize.2 + cfg.gap)
          (by omega) (le_of_lt hq2)
        push_cast at this
        linarith
      linarith
    rcases le_total (L.getD i ((0, 0), (0, 0))).1.1 (L.getD j ((0, 0), (0, 0))).1.1 with
      hmx | hmx <;>
      rcases le_total (L.getD i ((0, 0), (0, 0))).1.2 (L.getD j ((0, 0), (0, 0))).1.2 with
        hmy | hmy
    · have hci : covers (L.getD i ((0, 0), (0, 0)))
          ((L.getD j ((0, 0), (0, 0))).1.1, (L.getD j ((0, 0), (0, 0))).1.2) := by
        unfold covers
        omega
      have hcj : covers (L.getD j ((0, 0), (0, 0)))
          ((L.getD j ((0, 0), (0, 0))).1.1, (L.getD j ((0, 0), (0, 0))).1.2) := by
        unfold covers
        omega
      have h2 := two_le_countP_of_lt ((0, 0), (0, 0))
        (fun l => decide (covers l
          ((L.getD j ((0, 0), (0, 0))).1.1, (L.getD j ((0, 0), (0, 0))).1.2))) L i j hij hj
        (decide_eq_true hci) (decide_eq_true hcj)
      have h1 := hcnt (L.getD j ((0, 0), (0, 0))).1.1 (L.getD j ((0, 0), (0, 0))).1.2
        (by omega) (by omega) (by omega) (by omega)
      rw [h1] at h2
      omega
    · have hci : covers (L.getD i ((0, 0), (0, 0)))
          ((L.getD j ((0, 0), (0, 0))).1.1, (L.getD i ((0, 0), (0, 0))).1.2) := by
        unfold covers
        omega
      have hcj : covers (L.getD j ((0, 0), (0, 0)))
          ((L.getD j ((0, 0), (0, 0))).1.1, (L.getD i ((0, 0), (0, 0))).1.2) := by
        unfold covers
        omega
      have h2 := two_le_countP_of_lt ((0, 0), (0, 0))
        (fun l => decide (covers l
          ((L.getD j ((0, 0), (0, 0))).1.1, (L.getD i ((0, 0), (0, 0))).1.2))) L i j hij hj
        (decide_eq_true hci) (decide_eq_true hcj)
      have h1 := hcnt (L.getD j ((0, 0), (0, 0))).1.1 (L.getD i ((0, 0), (0, 0))).1.2
        (by omega) (by omega) (by omega) (by omega)
      rw [h1] at h2
      omega
    · have hci : covers (L.getD i ((0, 0), (0, 0)))
          ((L.getD i ((0, 0), (0, 0))).1.1, (L.getD j ((0, 0), (0, 0))).1.2) := by
        unfold covers
        omega
      have hcj : covers (L.getD j ((0, 0), (0, 0)))
          ((L.getD i ((0, 0), (0, 0))).1.1, (L.getD j ((0, 0), (0, 0))).1.2) := by
        unfold covers
        omega
      have h2 := two_le_countP_of_lt ((0, 0), (0, 0))
        (fun l => decide (covers l
          ((L.getD i ((0, 0), (0, 0))).1.1, (L.getD j ((0, 0), (0, 0))).1.2))) L i j hij hj
        (decide_eq_true hci) (decide_eq_true hcj)
      have h1 := hcnt (L.getD i ((0, 0), (0, 0))).1.1 (L.getD j ((0, 0), (0, 0))).1.2
        (by omega) (by omega) (by omega) (by omega)
      rw [h1] at h2
      omega
    · have hci : covers (L.getD i ((0, 0), (0, 0)))
          ((L.getD i ((0, 0), (0, 0))).1.1, (L.getD i ((0, 0), (0, 0))).1.2) := by
        unfold covers
        omega
      have hcj : covers (L.getD j ((0, 0), (0, 0)))
          ((L.getD i ((0, 0), (0, 0))).1.1, (L.getD i ((0, 0), (0, 0))).1.2) := by
        unfold covers
        omega
      have h2 := two_le_countP_of_lt ((0, 0), (0, 0))
        (fun l => decide (covers l
          ((L.getD i ((0, 0), (0, 0))).1.1, (L.getD i ((0, 0), (0, 0))).1.2))) L i j hij hj
        (decide_eq_true hci) (decide_eq_true hcj)
      have h1 := hcnt (L.getD i ((0, 0), (0, 0))).1.1 (L.getD i ((0, 0), (0, 0))).1.2
        (by omega) (by omega) (by omega) (by omega)
      rw [h1] at h2
      omega
  · -- every rectangle lies inside the scaled grid bound
    intro i hi p hp
    rw [hrlen] at hi
    rw [rects_getD_of_partition cfg L i hi] at hp
    simp only [inRect] at hp
    obtain ⟨hp1, hp2, hp3, hp4⟩ := hp
    have hmi : L.getD i ((0, 0), (0, 0)) ∈ L := by
      rw [List.getD_eq_getElem L _ hi]
      exact List.getElem_mem hi
    have hbi := hbnd _ hmi
    unfold lineInBox at hbi
    simp only [inRect, scaledGridBound]
    have hc1 : (0 : ℚ) ≤ ((L.getD i ((0, 0), (0, 0))).1.1 : ℚ) * (cfg.unitSize.1 + cfg.gap) := by
      apply mul_nonneg _ (le_of_lt hq1)
      exact_mod_cast hbi.1
    have hc2 : (0 : ℚ) ≤ ((L.getD i ((0, 0), (0, 0))).1.2 : ℚ) * (cfg.unitSize.2 + cfg.gap) := by
      apply mul_nonneg _ (le_of_lt hq2)
      exact_mod_cast hbi.2.2.2.1
    have hc3 : (((L.getD i ((0, 0), (0, 0))).2.1 : ℚ) + 1) * (cfg.unitSize.1 + cfg.gap)
        ≤ (cfg.gridSizeInUnits.1 : ℚ) * (cfg.unitSize.1 + cfg.gap) := by
      have := int_cast_mul_le ((L.getD i ((0, 0), (0, 0))).2.1 + 1) cfg.gridSizeInUnits.1
        (cfg.unitSize.1 + cfg.gap) (by omega) (le_of_lt hq1)
      push_cast at this
      linarith
    have hc4 : (((L.getD i ((0, 0), (0, 0))).2.2 : ℚ) + 1) * (cfg.unitSize.2 + cfg.gap)
        ≤ (cfg.gridSizeInUnits.2 : ℚ) * (cfg.unitSize.2 + cfg.gap) := by
      have := int_cast_mul_le ((L.getD i ((0, 0), (0, 0))).2.2 + 1) cfg.gridSizeInUnits.2
        (cfg.unitSize.2 + cfg.gap) (by omega) (le_of_lt hq2)
      push_cast at this
      linarith
    refine ⟨by linarith, by rw [htot1] at *; linarith,
            by linarith, by rw [htot2] at *; linarith⟩
  · -- every uncovered point of the bound lies in a gap band
    intro p hp hgx hgy
    simp only [inRect, scaledGridBound] at hp
    obtain ⟨hp1, hp2, hp3, hp4⟩ := hp
    have hx0 : 0 ≤ p.1 - (gridTopLeft cfg).1 := by linarith
    have hy0 : 0 ≤ p.2 - (gridTopLeft cfg).2 := by linarith
    have hxtot : p.1 - (gridTopLeft cfg).1 ≤ (totalGridBounds cfg).1 := by linarith
    have hytot : p.2 - (gridTopLeft cfg).2 ≤ (totalGridBounds cfg).2 := by linarith
    set cx := ⌊(p.1 - (gridTopLeft cfg).1) / (cfg.unitSize.1 + cfg.gap)⌋ with hcxdef
    set cy := ⌊(p.2 - (gridTopLeft cfg).2) / (cfg.unitSize.2 + cfg.gap)⌋ with hcydef
    have hcx0 : 0 ≤ cx := Int.floor_nonneg.mpr (div_nonneg hx0 (le_of_lt hq1))
    have hcy0 : 0 ≤ cy := Int.floor_nonneg.mpr (div_nonneg hy0 (le_of_lt hq2))
    have hcxle : (cx : ℚ) * (cfg.unitSize.1 + cfg.gap) ≤ p.1 - (gridTopLeft cfg).1 := by
      rw [← le_div_iff₀ hq1]
      exact Int.floor_le _
    have hcyle : (cy : ℚ) * (cfg.unitSize.2 + cfg.gap) ≤ p.2 - (gridTopLeft cfg).2 := by
      rw [← le_div_iff₀ hq2]
      exact Int.floor_le _
    have hcxlt : p.1 - (gridTopLeft cfg).1 < ((cx : ℚ) + 1) * (cfg.unitSize.1 + cfg.gap) := by
      rw [← div_lt_iff₀ hq1]
      exact Int.lt_floor_add_one _
    have hcylt : p.2 - (gridTopLeft cfg).2 < ((cy : ℚ) + 1) * (cfg.unitSize.2 + cfg.gap) := by
      rw [← div_lt_iff₀ hq2]
      exact Int.lt_floor_add_one _
    have hcxw : cx ≤ cfg.gridSizeInUnits.1 - 1 := by
      have hlt : (p.1 - (gridTopLeft cfg).1) / (cfg.unitSize.1 + cfg.gap)
          < (cfg.gridSizeInUnits.1 : ℚ) := by
        rw [div_lt_iff₀ hq1]
        rw [htot1] at hxtot
        linarith
      have := Int.floor_lt.mpr hlt
      omega
    have hcyw : cy ≤ cfg.gridSizeInUnits.2 - 1 := by
      have hlt : (p.2 - (gridTopLeft cfg).2) / (cfg.unitSize.2 + cfg.gap)
          < (cfg.gridSizeInUnits.2 : ℚ) := by
        rw [div_lt_iff₀ hq2]
        rw [htot2] at hytot
        linarith
      have := Int.floor_lt.mpr hlt
      omega
    have hexp1 : ((cx : ℚ) + 1) * (cfg.unitSize.1 + cfg.gap)
        = (cx : ℚ) * (cfg.unitSize.1 + cfg.gap) + (cfg.unitSize.1 + cfg.gap) := by ring
    have hexp2 : ((cy : ℚ) + 1) * (cfg.unitSize.2 + cfg.gap)
        = (cy : ℚ) * (cfg.unitSize.2 + cfg.gap) + (cfg.unitSize.2 + cfg.gap) := by ring
    have hxub : p.1 - (gridTopLeft cfg).1
        ≤ (cx : ℚ) * (cfg.unitSize.1 + cfg.gap) + cfg.unitSize.1 := by
      by_contra hcon
      push_neg at hcon
      rcases eq_or_lt_of_le hcxw with hceq | hclt
      · rw [htot1] at hxtot
        have hcast : (cx : ℚ) = (cfg.gridSizeInUnits.1 : ℚ) - 1 := by
          rw [hceq]
          push_cast
          ring
        have hexp3 : ((cfg.gridSizeInUnits.1 : ℚ) - 1) * (cfg.unitSize.1 + cfg.gap)
            = (cfg.gridSizeInUnits.1 : ℚ) * (cfg.unitSize.1 + cfg.gap)
              - (cfg.unitSize.1 + cfg.gap) := by ring
        rw [hcast] at hcon
        linarith
      · exact hgx ⟨cx + 1, by omega, by omega,
          by push_cast; linarith, by push_cast; linarith⟩
    have hyub : p.2 - (gridTopLeft cfg).2
        ≤ (cy : ℚ) * (cfg.unitSize.2 + cfg.gap) + cfg.unitSize.2 := by
      by_contra hcon
      push_neg at hcon
      rcases eq_or_lt_of_le hcyw with hceq | hclt
      · rw [htot2] at hytot
        have hcast : (cy : ℚ) = (cfg.gridSizeInUnits.2 : ℚ) - 1 := by
          rw [hceq]
          push_cast
          ring
        have hexp3 : ((cfg.gridSizeInUnits.2 : ℚ) - 1) * (cfg.unitSize.2 + cfg.gap)
            = (cfg.gridSizeInUnits.2 : ℚ) * (cfg.unitSize.2 + cfg.gap)
              - (cfg.unitSize.2 + cfg.gap) := by ring
        rw [hcast] at hcon
        linarith
      · exact hgy ⟨cy + 1, by omega, by omega,
          by push_cast; linarith, by push_cast; linarith⟩
    have hcell := hcnt cx cy (by omega) (by omega) (by omega) (by omega)
    have hpos : 0 < L.countP (fun l => decide (covers l (cx, cy))) := by
      rw [hcell]
      norm_num
    obtain ⟨l, hlmem, hpl⟩ := List.countP_pos_iff.mp hpos
    obtain ⟨n, hn, rfl⟩ := List.mem_iff_getElem.mp hlmem
    refine ⟨n, by rw [hrlen]; exact hn, ?_⟩
    rw [rects_getD_of_partition cfg L n hn]
    have hgetd : L.getD n ((0, 0), (0, 0)) = L[n] := List.getD_eq_getElem L _ hn
    rw [hgetd]
    have hcov : covers L[n] (cx, cy) := of_decide_eq_true hpl
    unfold covers at hcov
    simp only [inRect]
    have hm1 : ((L[n].1.1 : ℚ)) * (cfg.unitSize.1 + cfg.gap)
        ≤ (cx : ℚ) * (cfg.unitSize.1 + cfg.gap) :=
      int_cast_mul_le _ _ _ hcov.1 (le_of_lt hq1)
    have hm2 : ((cx : ℚ)) * (cfg.unitSize.1 + cfg.gap)
        ≤ (L[n].2.1 : ℚ) * (cfg.unitSize.1 + cfg.gap) :=
      int_cast_mul_le _ _ _ hcov.2.1 (le_of_lt hq1)
    have hm3 : ((L[n].1.2 : ℚ)) * (cfg.unitSize.2 + cfg.gap)
        ≤ (cy : ℚ) * (cfg.unitSize.2 + cfg.gap) :=
      int_cast_mul_le _ _ _ hcov.2.2.1 (le_of_lt hq2)
    have hm4 : ((cy : ℚ)) * (cfg.unitSize.2 + cfg.gap)
        ≤ (L[n].2.2 : ℚ) * (cfg.unitSize.2 + cfg.gap) :=
      int_cast_mul_le _ _ _ hcov.2.2.2 (le_of_lt hq2)
    have hexp4 : ((L[n].2.1 : ℚ) + 1) * (cfg.unitSize.1 + cfg.gap)
        = (L[n].2.1 : ℚ) * (cfg.unitSize.1 + cfg.gap) + (cfg.unitSize.1 + cfg.gap) := by ring
    have hexp5 : ((L[n].2.2 : ℚ) + 1) * (cfg.unitSize.2 + cfg.gap)
        = (L[n].2.2 : ℚ) * (cfg.unitSize.2 + cfg.gap) + (cfg.unitSize.2 + cfg.gap) := by ring
    refine ⟨by linarith, by linarith, by linarith, by linarith⟩

theorem C1_partition_rects_tile_witness :
    TilesScaledBound ⟨(1, 1), (2, 2), 1, 3, 3⟩
      (convertGridLinesToRects ⟨(1, 1), (2, 2), 1, 3, 3⟩
        (([((0, 0), (0, 1)), ((1, 0), (1, 1))] : List LineZ).map toQLine)
        (List.replicate ([((0, 0), (0, 1)), ((1, 0), (1, 1))] : List LineZ).length (1, 1))) :=
  C1_partition_rects_tile ⟨(1, 1), (2, 2), 1, 3, 3⟩ (fun _ => 3/4)
    (fun _ => by norm_num) (by norm_num) (by norm_num) (by norm_num) (by norm_num)
    (by norm_num) (1/2) 1 0 1 [((0, 0), (0, 1)), ((1, 0), (1, 1))]
    (by
      rw [generateGridPartitioningInGridUnits]
      norm_num [-Prod.mk_zero_zero])

/-- C1 counterexample: on the 3×3 grid, the outcome sequence `streamCexC1`
(which feeds the sample 0 to an empty-range cut draw) makes the partitioner
emit the line `((1,0),(1,2))` twice, so the converted rectangles at indices 3
and 4 coincide and overlap — the produced rectangles do not tile the scaled
grid bound. -/
theorem C1_tiling_counterexample :
    generateGridPartitioningInGridUnits streamCexC1 10 (0, 0)
        (cfgCexC1.gridSizeInUnits.1 - 1, cfgCexC1.gridSizeInUnits.2 - 1) (1/2) 0
      = some (linesCexC1, 8) ∧
    ¬ TilesScaledBound cfgCexC1
        (convertGridLinesToRects cfgCexC1 (linesCexC1.map toQLine)
          (List.replicate linesCexC1.length (1, 1))) := by
  constructor
  · have hbound : ((cfgCexC1.gridSizeInUnits.1 - 1 : ℤ), (cfgCexC1.gridSizeInUnits.2 - 1 : ℤ))
        = ((2 : ℤ), (2 : ℤ)) := by
      norm_num [cfgCexC1]
    rw [hbound]
    have e3 : generateGridPartitioningInGridUnits streamCexC1 7 (0, 0) (0, 0) (7/16) 6
        = some ([((0, 0), (0, 0))], 6) := by
      rw [generateGridPartitioningInGridUnits]
      norm_num [-Prod.mk_zero_zero]
    have e4 : generateGridPartitioningInGridUnits streamCexC1 7 (0, 2) (0, 2) (7/16) 6
        = some ([((0, 2), (0, 2))], 6) := by
      rw [generateGridPartitioningInGridUnits]
      norm_num [-Prod.mk_zero_zero]
    have e2 : generateGridPartitioningInGridUnits streamCexC1 8 (0, 0) (0, 2) (7/8) 4
        = some ([((0, 0), (0, 0)), ((0, 1), (0, 1)), ((0, 2), (0, 2))], 6) := by
      rw [generateGridPartitioningInGridUnits]
      norm_num [-Prod.mk_zero_zero, streamCexC1, randomIntDraw, e3, e4]
    have e1 : generateGridPartitioningInGridUnits streamCexC1 9 (0, 0) (0, 2) (3/4) 2
        = some ([((0, 0), (0, 0)), ((0, 1), (0, 1)), ((0, 2), (0, 2)), ((1, 0), (1, 2))], 6) := by
      rw [generateGridPartitioningInGridUnits]
      norm_num [-Prod.mk_zero_zero, streamCexC1, randomIntDraw, e2]
    have e6 : generateGridPartitioningInGridUnits streamCexC1 8 (2, 0) (2, 0) (3/8) 8
        = some ([((2, 0), (2, 0))], 8) := by
      rw [generateGridPartitioningInGridUnits]
      norm_num [-Prod.mk_zero_zero]
    have e7 : generateGridPartitioningInGridUnits streamCexC1 8 (2, 2) (2, 2) (3/8) 8
        = some ([((2, 2), (2, 2))], 8) := by
      rw [generateGridPartitioningInGridUnits]
      norm_num [-Prod.mk_zero_zero]
    have e5 : generateGridPartitioningInGridUnits streamCexC1 9 (2, 0) (2, 2) (3/4) 6
        = some ([((2, 0), (2, 0)), ((2, 1), (2, 1)), ((2, 2), (2, 2))], 8) := by
      rw [generateGridPartitioningInGridUnits]
      norm_num [-Prod.mk_zero_zero, streamCexC1, randomIntDraw, e6, e7]
    rw [generateGridPartitioningInGridUnits]
    norm_num [-Prod.mk_zero_zero, streamCexC1, randomIntDraw, e1, e5, linesCexC1]
  · have hlen : (convertGridLinesToRects cfgCexC1 (linesCexC1.map toQLine)
        (List.replicate linesCexC1.length (1, 1))).length = 8 := by
      rw [convertGridLinesToRects_length]
      norm_num [linesCexC1]
    have h3 : (convertGridLinesToRects cfgCexC1 (linesCexC1.map toQLine)
        (List.replicate linesCexC1.length (1, 1))).getD 3 ((0, 0), (0, 0))
        = ((2, 0), (3, 5)) := by
      rw [convertGridLinesToRects_getD cfgCexC1 _ _ 3 (by norm_num [linesCexC1])]
      norm_num [-Prod.mk_zero_zero, linesCexC1, toQLine, cfgCexC1, gridTopLeft,
        totalGridBounds]
    have h4 : (convertGridLinesToRects cfgCexC1 (linesCexC1.map toQLine)
        (List.replicate linesCexC1.length (1, 1))).getD 4 ((0, 0), (0, 0))
        = ((2, 0), (3, 5)) := by
      rw [convertGridLinesToRects_getD cfgCexC1 _ _ 4 (by norm_num [linesCexC1])]
      norm_num [-Prod.mk_zero_zero, linesCexC1, toQLine, cfgCexC1, gridTopLeft,
        totalGridBounds]
    rintro ⟨hdisj, -, -⟩
    refine hdisj 3 4 (by norm_num) (by rw [hlen]; norm_num) (2, 0) ?_ ?_
    · rw [h3]
      norm_num [inRect]
    · rw [h4]
      norm_num [inRect]

end Gridways
